import Mathlib

/-!
# envvar: typed environment-variable lookup with validation

A shallow embedding of `envvar.go` (package `envvar`) and of the parts of the Go
standard library it calls (`strconv.Atoi`, `strconv.ParseInt`, `strconv.ParseUint`,
`strconv.ParseBool`, `strconv.Quote`, the `%q` and `%v` verbs of `fmt`, `url.Parse`,
`mail.ParseAddress`).

Modelling conventions
* A Go `string` is a Lean `String`, so the model covers the strings that are valid
  UTF-8. Byte-wise loops of the library run over `bytes s`, the UTF-8 encoding.
* A Go `error` is an `Option String`: `none` is `nil`, `some t` is an error whose
  `Error()` text is `t`. `*strconv.NumError` keeps its three fields.
* Go `int` is `Int`, Go `uint` is `Nat`; conversions between widths wrap explicitly.
* `float64` is an IEEE-754 binary64 bit pattern. The decimal conversions
  `strconv.ParseFloat` and the `%v` rendering of a float are parameters of the host,
  as are the Unicode tables of `strconv.IsPrint`.
* `url.Parse` and `mail.ParseAddress` are embedded as far as they decide whether an
  error is returned, following `net/url` and `net/mail` of Go 1.22; the decoding of MIME
  encoded words and `net.ParseIP`, which `net/mail` calls, are parameters of the host.
* The process environment read by `os.LookupEnv` is a function `String → Option String`.
-/

namespace envvar

/-! ## Host parameters -/

/-- Word size of the platform, `strconv.IntSize`. -/
inductive Arch where
  | bits32
  | bits64
  deriving DecidableEq, Repr

/-- The value of `strconv.IntSize` (the width of `int` and `uint`). -/
def Arch.intSize : Arch → Nat
  | .bits32 => 32
  | .bits64 => 64

/-- IEEE-754 binary64 value, given by its bit pattern (read modulo `2^64`). -/
structure Float64 where
  bits : Nat
  deriving DecidableEq, Repr

/-- Kinds of error carried by a `strconv.NumError` (`ErrRange`, `ErrSyntax`, and the
error made by `bitSizeError`). -/
inductive ErrKind where
  | ErrRange
  | ErrSyntax
  | invalidBitSize (bitSize : Nat)
  deriving DecidableEq, Repr

/-- Go library `strconv.NumError`: a failed conversion. -/
structure NumError where
  Func : String
  Num : String
  Err : ErrKind
  deriving DecidableEq, Repr

/-- What the embedding takes from the host as given primitives. -/
structure Host where
  /-- the platform word size -/
  arch : Arch
  /-- the tables `isPrint16`, `isNotPrint16`, `isPrint32`, `isNotPrint32` consulted by
  `strconv.IsPrint` for runes above `0xFF` -/
  isPrintTable : Char → Bool
  /-- Go library `strconv.ParseFloat(s, 64)` -/
  ParseFloat : String → Float64 × Option NumError
  /-- the `%v` rendering of a `float64` -/
  formatFloat : Float64 → String
  /-- whether `mime.(*WordDecoder).Decode`, with the charset reader of `net/mail`, fails
  with a charset error on a word that has the shape of an encoded word -/
  encodedWordCharsetError : String → Bool
  /-- whether `net.ParseIP(s)` returns an address -/
  netParseIPOk : String → Bool

/-- The process environment as seen by `os.LookupEnv`. -/
abbrev Env := String → Option String

/-! ## Strings and bytes -/

/-- UTF-8 encoding of one character, as bytes. -/
def utf8 (c : Char) : List Nat :=
  let v := c.toNat
  if v < 0x80 then [v]
  else if v < 0x800 then [0xC0 + v / 64, 0x80 + v % 64]
  else if v < 0x10000 then [0xE0 + v / 4096, 0x80 + v / 64 % 64, 0x80 + v % 64]
  else [0xF0 + v / 262144, 0x80 + v / 4096 % 64, 0x80 + v / 64 % 64, 0x80 + v % 64]

/-- The conversion `[]byte(s)`. -/
def bytes (s : String) : List Nat :=
  s.data.flatMap utf8

/-- The slice `s[1:]` of a string whose first byte is an ASCII character. -/
def tail1 (s : String) : String :=
  String.mk s.data.tail

/-- The double quote character. -/
def dquote : Char := Char.ofNat 0x22

/-- The backslash character. -/
def backslash : Char := Char.ofNat 0x5C

/-- The digit `lowerhex[n]` of `strconv`. -/
def lowerhex (n : Nat) : Char :=
  "0123456789abcdef".data.getD n '0'

/-- Decimal rendering of a natural number, most significant digit first. -/
def decimal (n : Nat) : String :=
  String.mk (Nat.toDigits 10 n)

/-- The `%v` (and `%d`) rendering of a signed integer. -/
def formatInt (i : Int) : String :=
  if i < 0 then "-" ++ decimal i.natAbs else decimal i.natAbs

namespace strconv

/-- Go library `strconv.IsPrint`: the Latin-1 fast path is spelled out, the tables for the other
runes come from the host. -/
def IsPrint (H : Host) (r : Char) : Bool :=
  if r.toNat ≤ 0xFF then
    if 0x20 ≤ r.toNat ∧ r.toNat ≤ 0x7E then true
    else if 0xA1 ≤ r.toNat ∧ r.toNat ≤ 0xFF then r.toNat != 0xAD
    else false
  else H.isPrintTable r

/-- Go library `strconv.appendEscapedRune` with `quote = '"'`, `ASCIIonly = false`,
`graphicOnly = false`: the characters written for one rune. -/
def appendEscapedRune (H : Host) (r : Char) : List Char :=
  if r = dquote ∨ r = backslash then [backslash, r]
  else if IsPrint H r then [r]
  else
    match r.toNat with
    | 7 => [backslash, 'a']
    | 8 => [backslash, 'b']
    | 12 => [backslash, 'f']
    | 10 => [backslash, 'n']
    | 13 => [backslash, 'r']
    | 9 => [backslash, 't']
    | 11 => [backslash, 'v']
    | v =>
      if v < 0x20 ∨ v = 0x7F then
        [backslash, 'x', lowerhex (v / 16 % 16), lowerhex (v % 16)]
      else if v < 0x10000 then
        [backslash, 'u', lowerhex (v / 4096 % 16), lowerhex (v / 256 % 16),
          lowerhex (v / 16 % 16), lowerhex (v % 16)]
      else
        [backslash, 'U', lowerhex (v / 268435456 % 16), lowerhex (v / 16777216 % 16),
          lowerhex (v / 1048576 % 16), lowerhex (v / 65536 % 16),
          lowerhex (v / 4096 % 16), lowerhex (v / 256 % 16),
          lowerhex (v / 16 % 16), lowerhex (v % 16)]

/-- Go library `strconv.Quote`, which is also what the verb `%q` prints for a string: a
double-quoted Go string literal. (A Lean `String` is valid UTF-8, so the branch for
an invalid encoding does not arise.) -/
def Quote (H : Host) (s : String) : String :=
  String.mk (dquote :: (s.data.flatMap (appendEscapedRune H) ++ [dquote]))

/-- Text of `ErrRange`, `ErrSyntax` and of the error built by `bitSizeError`. -/
def ErrKind.Error : ErrKind → String
  | .ErrRange => "value out of range"
  | .ErrSyntax => "invalid syntax"
  | .invalidBitSize n => "invalid bit size " ++ decimal n

/-- Go library `(*NumError).Error`. -/
def NumError.Error (H : Host) (e : NumError) : String :=
  "strconv." ++ e.Func ++ ": " ++ "parsing " ++ Quote H e.Num ++ ": " ++ ErrKind.Error e.Err

/-- Go library `strconv.syntaxError`. -/
def syntaxError (fn str : String) : NumError :=
  ⟨fn, str, .ErrSyntax⟩

/-- Go library `strconv.rangeError`. -/
def rangeError (fn str : String) : NumError :=
  ⟨fn, str, .ErrRange⟩

/-- Go library `strconv.bitSizeError`. -/
def bitSizeError (fn str : String) (bitSize : Nat) : NumError :=
  ⟨fn, str, .invalidBitSize bitSize⟩

/-- Go library `strconv.ParseBool`. -/
def ParseBool (str : String) : Bool × Option NumError :=
  if str = "1" ∨ str = "t" ∨ str = "T" ∨ str = "true" ∨ str = "TRUE" ∨ str = "True" then
    (true, none)
  else if str = "0" ∨ str = "f" ∨ str = "F" ∨ str = "false" ∨ str = "FALSE"
      ∨ str = "False" then
    (false, none)
  else (false, some (syntaxError "ParseBool" str))

/-- Go library `strconv.lower`: `c | ('x' - 'X')`. -/
def lower (c : Nat) : Nat :=
  c ||| 0x20

/-- The digit value that the loop of `ParseUint` reads from byte `c`, or `none` in the
`default` case of its switch (the underscore case needs base 0 and is not taken). -/
def digitOf (c : Nat) : Option Nat :=
  if 0x30 ≤ c ∧ c ≤ 0x39 then some (c - 0x30)
  else if 0x61 ≤ lower c ∧ lower c ≤ 0x7A then some (lower c - 0x61 + 10)
  else none

/-- Go library `maxUint64`. -/
def maxUint64 : Nat := 2 ^ 64 - 1

/-- The loop of `strconv.ParseUint` for base 10: `n` is the accumulator, `cutoff` is
`maxUint64/10 + 1`. -/
def parseUintLoop (s0 : String) (maxVal : Nat) : List Nat → Nat → Nat × Option NumError
  | [], n => (n, none)
  | c :: cs, n =>
    match digitOf c with
    | none => (0, some (syntaxError "ParseUint" s0))
    | some d =>
      if d ≥ 10 then (0, some (syntaxError "ParseUint" s0))
      else if n ≥ maxUint64 / 10 + 1 then (maxVal, some (rangeError "ParseUint" s0))
      else
        let n10 := n * 10 % 2 ^ 64
        let n1 := (n10 + d) % 2 ^ 64
        if n1 < n10 ∨ n1 > maxVal then (maxVal, some (rangeError "ParseUint" s0))
        else parseUintLoop s0 maxVal cs n1

/-- Go library `strconv.ParseUint(s, 10, bitSize)`. -/
def ParseUint (H : Host) (s : String) (bitSize : Nat) : Nat × Option NumError :=
  if s = "" then (0, some (syntaxError "ParseUint" s))
  else
    let bitSize := if bitSize = 0 then H.arch.intSize else bitSize
    if bitSize > 64 then (0, some (bitSizeError "ParseUint" s bitSize))
    else
      let maxVal := (2 ^ bitSize % 2 ^ 64 + (2 ^ 64 - 1)) % 2 ^ 64
      parseUintLoop s maxVal (bytes s) 0

/-- Conversion of an integer to a signed integer of `w` bits (two's complement). -/
def wrapInt (w : Nat) (x : Int) : Int :=
  (x + 2 ^ (w - 1)) % 2 ^ w - 2 ^ (w - 1)

/-- Go library `strconv.ParseInt(s, 10, bitSize)`; the result is an `int64`. -/
def ParseInt (H : Host) (s : String) (bitSize : Nat) : Int × Option NumError :=
  if s = "" then (0, some (syntaxError "ParseInt" s))
  else
    let s0 := s
    let neg := (bytes s).head? = some 0x2D
    let s := if (bytes s).head? = some 0x2B ∨ (bytes s).head? = some 0x2D then tail1 s else s
    match ParseUint H s bitSize with
    | (_, some ⟨_, _, .ErrSyntax⟩) => (0, some ⟨"ParseInt", s0, .ErrSyntax⟩)
    | (_, some ⟨_, _, .invalidBitSize b⟩) => (0, some ⟨"ParseInt", s0, .invalidBitSize b⟩)
    | (un, _) =>
      let bitSize := if bitSize = 0 then H.arch.intSize else bitSize
      let cutoff : Nat := 2 ^ (bitSize - 1) % 2 ^ 64
      if ¬ neg ∧ un ≥ cutoff then
        (wrapInt 64 ((cutoff : Int) - 1), some (rangeError "ParseInt" s0))
      else if neg ∧ un > cutoff then
        (wrapInt 64 (- wrapInt 64 cutoff), some (rangeError "ParseInt" s0))
      else
        let n := wrapInt 64 un
        (if neg then wrapInt 64 (- n) else n, none)

/-- The fast-path loop of `strconv.Atoi`: `none` when a byte is not a decimal digit. -/
def atoiLoop : List Nat → Int → Option Int
  | [], n => some n
  | ch :: rest, n =>
    if (ch + 256 - 0x30) % 256 > 9 then none
    else atoiLoop rest (n * 10 + ((ch + 256 - 0x30) % 256 : Nat))

/-- Go library `strconv.Atoi`. -/
def Atoi (H : Host) (s : String) : Int × Option NumError :=
  let sLen := (bytes s).length
  if (H.arch.intSize = 32 ∧ 0 < sLen ∧ sLen < 10) ∨
      (H.arch.intSize = 64 ∧ 0 < sLen ∧ sLen < 19) then
    let s0 := s
    let signed := (bytes s).head? = some 0x2D ∨ (bytes s).head? = some 0x2B
    let b := if signed then (bytes s).tail else bytes s
    if signed ∧ b.length < 1 then (0, some (syntaxError "Atoi" s0))
    else
      match atoiLoop b 0 with
      | none => (0, some (syntaxError "Atoi" s0))
      | some n => (if (bytes s0).head? = some 0x2D then - n else n, none)
  else
    match ParseInt H s 0 with
    | (i64, some nerr) => (wrapInt H.arch.intSize i64, some ⟨"Atoi", nerr.Num, nerr.Err⟩)
    | (i64, none) => (wrapInt H.arch.intSize i64, none)

end strconv

/-! ## The Go library `net/url`: whether `url.Parse` succeeds

The functions below follow `net/url/url.go` of Go 1.22 and keep only what decides
whether `Parse` returns an error; a URL is the list of its bytes. -/

namespace url

/-- Whether the byte list `p` starts the byte list `s` (`strings.HasPrefix`). -/
def startsWith (s p : List Nat) : Bool :=
  p.isPrefixOf s

/-- Whether the byte list `p` ends the byte list `s` (`strings.HasSuffix`). -/
def endsWith (s p : List Nat) : Bool :=
  p.isSuffixOf s

/-- Go library `strings.Cut(s, sep)` for a separator of one byte: the text before and
after the first occurrence of `sep`, or `s` and nothing when there is none. -/
def cut (sep : Nat) : List Nat → List Nat × List Nat
  | [] => ([], [])
  | c :: rest => if c = sep then ([], rest) else ((cut sep rest).1.cons c, (cut sep rest).2)

/-- Go library `strings.LastIndex(s, sep)` for a separator of one byte, `none` for -1. -/
def lastIndex (sep : Nat) (s : List Nat) : Option Nat :=
  (s.reverse.indexOf? sep).map fun i => s.length - 1 - i

/-- Go library `strings.Index(s, sub)`, `none` for -1. -/
def index (sub : List Nat) : List Nat → Option Nat
  | [] => if sub = [] then some 0 else none
  | c :: rest =>
    if sub.isPrefixOf (c :: rest) then some 0 else (index sub rest).map (· + 1)

/-- Go library `url.stringContainsCTLByte`. -/
def stringContainsCTLByte (s : List Nat) : Bool :=
  s.any fun b => b < 0x20 || b == 0x7F

/-- Go library `url.ishex`. -/
def ishex (c : Nat) : Bool :=
  (0x30 ≤ c && c ≤ 0x39) || (0x61 ≤ c && c ≤ 0x66) || (0x41 ≤ c && c ≤ 0x46)

/-- Go library `url.unhex`. -/
def unhex (c : Nat) : Nat :=
  if 0x30 ≤ c ∧ c ≤ 0x39 then c - 0x30
  else if 0x61 ≤ c ∧ c ≤ 0x66 then c - 0x61 + 10
  else if 0x41 ≤ c ∧ c ≤ 0x46 then c - 0x41 + 10
  else 0

/-- The modes of `url.unescape` (type `encoding`). -/
inductive Encoding where
  | encodePath
  | encodePathSegment
  | encodeHost
  | encodeZone
  | encodeUserPassword
  | encodeQueryComponent
  | encodeFragment
  deriving DecidableEq, Repr

/-- Go library `url.shouldEscape(c, encodeHost)`, the only mode in which `unescape`
asks it: letters, digits, the sub-delimiters and brackets allowed in a host, and the
marks `- _ . ~` need no escape; every other byte does. -/
def shouldEscapeHost (c : Nat) : Bool :=
  if (0x61 ≤ c ∧ c ≤ 0x7A) ∨ (0x41 ≤ c ∧ c ≤ 0x5A) ∨ (0x30 ≤ c ∧ c ≤ 0x39) then false
  else if c ∈ [0x21, 0x24, 0x26, 0x27, 0x28, 0x29, 0x2A, 0x2B, 0x2C, 0x3B, 0x3D, 0x3A,
      0x5B, 0x5D, 0x3C, 0x3E, 0x22] then false
  else if c ∈ [0x2D, 0x5F, 0x2E, 0x7E] then false
  else true

/-- Go library `url.unescape(s, mode)`: whether it returns no error. A `%` must be
followed by two hex digits; in a host it may only escape a byte of `0x80` or more, or
be `%25`; in a zone it may not introduce a byte that a host could not hold; and a host
or zone may not hold an ASCII byte that needs escaping. -/
def unescapeOk (mode : Encoding) : List Nat → Bool
  | [] => true
  | c :: rest =>
    if c = 0x25 then
      match rest with
      | h1 :: h2 :: rest2 =>
        if !ishex h1 || !ishex h2 then false
        else if mode = .encodeHost ∧ unhex h1 < 8 ∧ ¬ (h1 = 0x32 ∧ h2 = 0x35) then false
        else if mode = .encodeZone ∧ ¬ (h1 = 0x32 ∧ h2 = 0x35)
            ∧ unhex h1 * 16 + unhex h2 ≠ 0x20
            ∧ shouldEscapeHost (unhex h1 * 16 + unhex h2) = true then false
        else unescapeOk mode rest2
      | _ => false
    else if c = 0x2B then unescapeOk mode rest
    else if (mode = .encodeHost ∨ mode = .encodeZone) ∧ c < 0x80
        ∧ shouldEscapeHost c = true then false
    else unescapeOk mode rest

/-- The loop of `url.getScheme`: `i` is the index of the byte at the head of the
remaining bytes. The result is `none` for the error `missing protocol scheme`, and
otherwise the scheme and the rest. -/
def getSchemeLoop (rawURL : List Nat) : List Nat → Nat → Option (List Nat × List Nat)
  | [], _ => some ([], rawURL)
  | c :: rest, i =>
    if (0x61 ≤ c ∧ c ≤ 0x7A) ∨ (0x41 ≤ c ∧ c ≤ 0x5A) then getSchemeLoop rawURL rest (i + 1)
    else if (0x30 ≤ c ∧ c ≤ 0x39) ∨ c = 0x2B ∨ c = 0x2D ∨ c = 0x2E then
      if i = 0 then some ([], rawURL) else getSchemeLoop rawURL rest (i + 1)
    else if c = 0x3A then
      if i = 0 then none else some (rawURL.take i, rest)
    else some ([], rawURL)

/-- Go library `url.getScheme`. -/
def getScheme (rawURL : List Nat) : Option (List Nat × List Nat) :=
  getSchemeLoop rawURL rawURL 0

/-- Go library `url.validOptionalPort`. -/
def validOptionalPort (port : List Nat) : Bool :=
  match port with
  | [] => true
  | c :: digits => c == 0x3A && digits.all fun b => 0x30 ≤ b && b ≤ 0x39

/-- Go library `url.validUserinfo`. -/
def validUserinfo (s : List Nat) : Bool :=
  s.all fun r =>
    (0x41 ≤ r && r ≤ 0x5A) || (0x61 ≤ r && r ≤ 0x7A) || (0x30 ≤ r && r ≤ 0x39)
      || decide (r ∈ [0x2D, 0x2E, 0x5F, 0x3A, 0x7E, 0x21, 0x24, 0x26, 0x27, 0x28, 0x29,
          0x2A, 0x2B, 0x2C, 0x3B, 0x3D, 0x25, 0x40])

/-- Go library `url.parseHost`: whether it returns no error. -/
def parseHostOk (host : List Nat) : Bool :=
  if startsWith host [0x5B] then
    match lastIndex 0x5D host with
    | none => false
    | some i =>
      if !validOptionalPort (host.drop (i + 1)) then false
      else
        match index [0x25, 0x32, 0x35] (host.take i) with
        | some zone =>
          unescapeOk .encodeHost (host.take zone)
            && unescapeOk .encodeZone ((host.take i).drop zone)
            && unescapeOk .encodeHost (host.drop i)
        | none => unescapeOk .encodeHost host
  else
    match lastIndex 0x3A host with
    | some i =>
      if !validOptionalPort (host.drop i) then false else unescapeOk .encodeHost host
    | none => unescapeOk .encodeHost host

/-- Go library `url.parseAuthority`: whether it returns no error. -/
def parseAuthorityOk (authority : List Nat) : Bool :=
  match lastIndex 0x40 authority with
  | none => parseHostOk authority
  | some i =>
    if !parseHostOk (authority.drop (i + 1)) then false
    else
      let userinfo := authority.take i
      if !validUserinfo userinfo then false
      else if !userinfo.contains 0x3A then unescapeOk .encodeUserPassword userinfo
      else
        unescapeOk .encodeUserPassword (cut 0x3A userinfo).1
          && unescapeOk .encodeUserPassword (cut 0x3A userinfo).2

/-- Go library `url.parse(rawURL, false)`: whether it returns no error. -/
def parseOk (rawURL : List Nat) : Bool :=
  if stringContainsCTLByte rawURL then false
  else if rawURL = [0x2A] then true
  else
    match getScheme rawURL with
    | none => false
    | some (scheme, rest0) =>
      let rest :=
        if endsWith rest0 [0x3F] ∧ rest0.count 0x3F = 1 then rest0.take (rest0.length - 1)
        else (cut 0x3F rest0).1
      if ¬ startsWith rest [0x2F] ∧ scheme ≠ [] then true
      else if ¬ startsWith rest [0x2F] ∧ (cut 0x2F rest).1.contains 0x3A then false
      else if (scheme ≠ [] ∨ ¬ startsWith rest [0x2F, 0x2F, 0x2F])
          ∧ startsWith rest [0x2F, 0x2F] then
        let authority0 := rest.drop 2
        match index [0x2F] authority0 with
        | some i =>
          if !parseAuthorityOk (authority0.take i) then false
          else unescapeOk .encodePath (authority0.drop i)
        | none =>
          if !parseAuthorityOk authority0 then false else unescapeOk .encodePath []
      else unescapeOk .encodePath rest

/-- Go library `url.Parse`: whether it returns a nil error. The fragment after the first
`#` is cut off and checked by `setFragment` when it is not empty. -/
def ParseOk (rawURL : String) : Bool :=
  let u := (cut 0x23 (bytes rawURL)).1
  let frag := (cut 0x23 (bytes rawURL)).2
  if !parseOk u then false
  else if frag = [] then true
  else unescapeOk .encodeFragment frag

end url

/-! ## The Go library `net/mail`: whether `mail.ParseAddress` succeeds

The functions below follow `net/mail/message.go` of Go 1.22 and keep only what decides
whether `ParseAddress` returns an error. The parser state `p.s` is the list of the
characters still to read: a Lean `String` is valid UTF-8, so `utf8.DecodeRuneInString`
yields the first character, and a test of the first byte against an ASCII character is
a test of the first character. -/

namespace mail

/-- Result of a parsing loop that is run with fuel: a value, the error of the Go
function, or the fuel ran out before the loop ended. -/
inductive Res (α : Type) where
  | ok (a : α)
  | fail
  | outOfFuel
  deriving DecidableEq, Repr

/-- Go library `mail.isMultibyte`. -/
def isMultibyte (r : Char) : Bool :=
  decide (r.toNat ≥ 0x80)

/-- Go library `mail.isVchar`: the visible characters `!` to `~`, and every character
outside ASCII. -/
def isVchar (r : Char) : Bool :=
  (decide (0x21 ≤ r.toNat) && decide (r.toNat ≤ 0x7E)) || isMultibyte r

/-- Go library `mail.isWSP`: space or tab. -/
def isWSP (r : Char) : Bool :=
  r == ' ' || r == Char.ofNat 9

/-- The specials of RFC 5322 that `mail.isAtext` excludes. -/
def specials : List Char :=
  ['(', ')', '<', '>', '[', ']', ':', ';', '@', backslash, ',', dquote]

/-- Go library `mail.isAtext`. -/
def isAtext (r : Char) (dot : Bool) : Bool :=
  if r = '.' then dot
  else if r ∈ specials then false
  else isVchar r

/-- Go library `mail.isQtext`. -/
def isQtext (r : Char) : Bool :=
  if r = backslash ∨ r = dquote then false else isVchar r

/-- Go library `mail.isDtext`. -/
def isDtext (r : Char) : Bool :=
  if r = '[' ∨ r = ']' ∨ r = backslash then false else isVchar r

/-- Go library `(*addrParser).skipSpace`: `strings.TrimLeft(p.s, " \t")`. -/
def skipSpace (s : List Char) : List Char :=
  s.dropWhile isWSP

/-- Whether the characters hold two dots in a row (`strings.Contains(atom, "..")`). -/
def hasDoubleDot : List Char → Bool
  | a :: b :: rest => (a == '.' && b == '.') || hasDoubleDot (b :: rest)
  | _ => false

/-- Go library `(*addrParser).consumeAtom(dot, permissive)`: the atom and the rest, or
`none` for an error. -/
def consumeAtom (dot permissive : Bool) (s : List Char) : Option (List Char × List Char) :=
  let atom := s.takeWhile fun r => isAtext r dot
  if atom = [] then none
  else if !permissive ∧
      (atom.head? = some '.' ∨ hasDoubleDot atom = true ∨ atom.getLast? = some '.') then none
  else some (atom, s.dropWhile fun r => isAtext r dot)

/-- The loop of `(*addrParser).consumeQuotedString` after the opening quote: the number
of characters of the quoted string and the rest after the closing quote, or `none` for
an error. -/
def quotedStringLoop : List Char → Bool → Nat → Option (Nat × List Char)
  | [], _, _ => none
  | r :: rest, escaped, n =>
    if escaped then
      if !isVchar r && !isWSP r then none else quotedStringLoop rest false (n + 1)
    else if isQtext r || isWSP r then quotedStringLoop rest false (n + 1)
    else if r = dquote then some (n, rest)
    else if r = backslash then quotedStringLoop rest true n
    else none

/-- Go library `(*addrParser).consumeQuotedString`, called when the first character is
a double quote. -/
def consumeQuotedString (s : List Char) : Option (Nat × List Char) :=
  quotedStringLoop s.tail false 0

/-- Go library `(*addrParser).consumeComment`, called after the opening parenthesis
with `depth = 1`: the comment, whether the parentheses closed, and the rest. -/
def consumeCommentLoop : List Char → Nat → List Char → List Char × Bool × List Char
  | [], depth, comment => (comment, depth == 0, [])
  | [c], depth, comment =>
    if depth = 0 then (comment, true, [c])
    else if c = '(' then consumeCommentLoop [] (depth + 1) (comment ++ [c])
    else if c = ')' then
      consumeCommentLoop [] (depth - 1) (if depth - 1 > 0 then comment ++ [c] else comment)
    else consumeCommentLoop [] depth (comment ++ [c])
  | c :: d :: rest, depth, comment =>
    if depth = 0 then (comment, true, c :: d :: rest)
    else if c = backslash then consumeCommentLoop rest depth (comment ++ [d])
    else if c = '(' then consumeCommentLoop (d :: rest) (depth + 1) (comment ++ [c])
    else if c = ')' then
      consumeCommentLoop (d :: rest) (depth - 1)
        (if depth - 1 > 0 then comment ++ [c] else comment)
    else consumeCommentLoop (d :: rest) depth (comment ++ [c])

/-- The loop of `(*addrParser).skipCFWS`, after the first `skipSpace`. -/
def skipCFWSLoop : Nat → List Char → Res (List Char)
  | 0, _ => .outOfFuel
  | fuel + 1, s =>
    match s with
    | '(' :: rest =>
      if (consumeCommentLoop rest 1 []).2.1 then
        skipCFWSLoop fuel (skipSpace (consumeCommentLoop rest 1 []).2.2)
      else .fail
    | _ => .ok s

/-- Go library `(*addrParser).skipCFWS`: the rest after spaces and comments, or `fail`
when a comment does not close. -/
def skipCFWS (s : List Char) : Res (List Char) :=
  skipCFWSLoop (s.length + 1) (skipSpace s)

/-- The fields of `strings.FieldsFunc(comment, f)` with `f` true on space and tab. -/
def fieldsLoop : List Char → List Char → List (List Char)
  | [], cur => if cur = [] then [] else [cur]
  | c :: rest, cur =>
    if isWSP c then
      if cur = [] then fieldsLoop rest [] else cur :: fieldsLoop rest []
    else fieldsLoop rest (cur ++ [c])

/-- The first test of `mime.(*WordDecoder).Decode`: the word has at least 8 bytes, starts
with `=?`, ends with `?=` and holds four question marks. Any other word is not an
encoded word. -/
def hasEncodedWordShape (word : List Char) : Bool :=
  let w := bytes (String.mk word)
  !(decide (w.length < 8) || !([0x3D, 0x3F].isPrefixOf w) || !([0x3F, 0x3D].isSuffixOf w)
    || w.count 0x3F != 4)

/-- Whether `(*addrParser).decodeRFC2047Word` returns an error: the decoder fails with
a charset error. -/
def decodeRFC2047WordFails (H : Host) (word : List Char) : Bool :=
  hasEncodedWordShape word && H.encodedWordCharsetError (String.mk word)

/-- Go library `(*addrParser).consumeDisplayNameComment`, called when the first
character is an opening parenthesis: the rest, or `none` for an error. -/
def consumeDisplayNameComment (H : Host) (s : List Char) : Option (List Char) :=
  match s with
  | '(' :: rest =>
    if !(consumeCommentLoop rest 1 []).2.1 then none
    else if (fieldsLoop (consumeCommentLoop rest 1 []).1 []).any (decodeRFC2047WordFails H)
      then none
    else some (consumeCommentLoop rest 1 []).2.2
  | _ => none

/-- The loop of `(*addrParser).consumeDomainLiteral` over the text between the
brackets: the text and the rest after the closing bracket. -/
def domainLiteralLoop : List Char → List Char → Option (List Char × List Char)
  | [], _ => none
  | r :: rest, dtext =>
    if r = ']' then some (dtext, rest)
    else if !isDtext r then none
    else domainLiteralLoop rest (dtext ++ [r])

/-- Go library `(*addrParser).consumeDomainLiteral`: the rest, or `none` for an error. -/
def consumeDomainLiteral (H : Host) (s : List Char) : Option (List Char) :=
  match s with
  | '[' :: rest =>
    match domainLiteralLoop rest [] with
    | none => none
    | some (dtext, rest2) => if H.netParseIPOk (String.mk dtext) then some rest2 else none
  | _ => none

/-- Go library `(*addrParser).consumeAddrSpec`: the rest after `local-part@domain`, or
`none` for an error (the parser is then put back where it was). -/
def consumeAddrSpec (H : Host) (s0 : List Char) : Option (List Char) :=
  let s := skipSpace s0
  if s = [] then none
  else
    let afterLocal : Option (List Char) :=
      if s.head? = some dquote then
        match consumeQuotedString s with
        | none => none
        | some (n, rest) => if n = 0 then none else some rest
      else (consumeAtom true false s).map Prod.snd
    match afterLocal with
    | some ('@' :: rest) =>
      let d := skipSpace rest
      if d = [] then none
      else if d.head? = some '[' then consumeDomainLiteral H d
      else (consumeAtom true false d).map Prod.snd
    | _ => none

/-- The loop of `(*addrParser).consumePhrase`; `haveWords` says whether a word has been
read. The result is the rest after the phrase, or `fail` for an error. -/
def consumePhraseLoop (H : Host) : Nat → List Char → Bool → Res (List Char)
  | 0, _, _ => .outOfFuel
  | fuel + 1, s0, haveWords =>
    match (if haveWords then skipCFWS s0 else .ok s0) with
    | .outOfFuel => .outOfFuel
    | .fail => .fail
    | .ok s1 =>
      let s := skipSpace s1
      if s = [] then .ok s
      else if s.head? = some dquote then
        match consumeQuotedString s with
        | none => if haveWords then .ok s else .fail
        | some (_, rest) => consumePhraseLoop H fuel rest true
      else
        match consumeAtom true true s with
        | none => if haveWords then .ok s else .fail
        | some (atom, rest) =>
          if decodeRFC2047WordFails H atom then (if haveWords then .ok rest else .fail)
          else consumePhraseLoop H fuel rest true

/-- Go library `(*addrParser).consumePhrase`. -/
def consumePhrase (H : Host) (s : List Char) : Res (List Char) :=
  consumePhraseLoop H (s.length + 1) s false

/-- Go library `(*addrParser).parseAddress(handleGroup)`: the number of addresses read
and the rest. The list of a group is read by `groupList`. -/
def parseAddress (H : Host) (groupList : List Char → Res (Nat × List Char))
    (handleGroup : Bool) (s0 : List Char) : Res (Nat × List Char) :=
  let s := skipSpace s0
  if s = [] then .fail
  else
    match consumeAddrSpec H s with
    | some rest =>
      let r := skipSpace rest
      if r.head? = some '(' then
        match consumeDisplayNameComment H r with
        | none => .fail
        | some r2 => .ok (1, r2)
      else .ok (1, r)
    | none =>
      match (if s.head? ≠ some '<' then consumePhrase H s else .ok s) with
      | .outOfFuel => .outOfFuel
      | .fail => .fail
      | .ok afterName =>
        let r := skipSpace afterName
        if handleGroup ∧ r.head? = some ':' then groupList r.tail
        else
          match r with
          | '<' :: r2 =>
            match consumeAddrSpec H r2 with
            | some ('>' :: r3) => .ok (1, r3)
            | _ => .fail
          | _ => .fail

/-- The loop of `(*addrParser).consumeGroupList`; `n` counts the addresses read. -/
def consumeGroupListLoop (H : Host) : Nat → List Char → Nat → Res (Nat × List Char)
  | 0, _, _ => .outOfFuel
  | fuel + 1, s, n =>
    match parseAddress H (fun _ => .fail) false (skipSpace s) with
    | .outOfFuel => .outOfFuel
    | .fail => .fail
    | .ok (k, rest) =>
      match skipCFWS rest with
      | .outOfFuel => .outOfFuel
      | .fail => .fail
      | .ok (';' :: r2) =>
        match skipCFWS r2 with
        | .outOfFuel => .outOfFuel
        | .fail => .fail
        | .ok r3 => .ok (n + k, r3)
      | .ok (',' :: r2) => consumeGroupListLoop H fuel r2 (n + k)
      | .ok _ => .fail

/-- Go library `(*addrParser).consumeGroupList`. -/
def consumeGroupList (H : Host) (s0 : List Char) : Res (Nat × List Char) :=
  match skipSpace s0 with
  | ';' :: rest =>
    match skipCFWS rest with
    | .outOfFuel => .outOfFuel
    | .fail => .fail
    | .ok r => .ok (0, r)
  | s => consumeGroupListLoop H (s.length + 1) s 0

/-- Go library `(*addrParser).parseSingleAddress`: `ok` when exactly one address is
read and nothing but spaces and comments follows. -/
def parseSingleAddress (H : Host) (s : List Char) : Res Unit :=
  match parseAddress H (consumeGroupList H) true s with
  | .outOfFuel => .outOfFuel
  | .fail => .fail
  | .ok (n, rest) =>
    match skipCFWS rest with
    | .outOfFuel => .outOfFuel
    | .fail => .fail
    | .ok r => if r ≠ [] then .fail else if n = 0 then .fail else if n > 1 then .fail else .ok ()

/-- Go library `mail.ParseAddress`: whether it returns a nil error. -/
def ParseAddressOk (H : Host) (address : String) : Bool :=
  decide (parseSingleAddress H address.data = .ok ())

end mail

/-! ## IEEE-754 comparisons on `float64` -/

/-- Whether the bit pattern is a NaN: exponent all ones, fraction not zero. -/
def Float64.isNaN (f : Float64) : Bool :=
  (f.bits % 2 ^ 64 / 2 ^ 52 % 2048 == 2047) && (f.bits % 2 ^ 52 != 0)

/-- Position of a non-NaN value on the number line: the magnitude bits, negated when
the sign bit is set (so `-0` and `+0` coincide and the infinities are the extremes). -/
def Float64.key (f : Float64) : Int :=
  if f.bits % 2 ^ 64 / 2 ^ 63 = 0 then ((f.bits % 2 ^ 63 : Nat) : Int)
  else - ((f.bits % 2 ^ 63 : Nat) : Int)

/-- The Go comparison `a < b` on `float64`. -/
def Float64.lt (a b : Float64) : Bool :=
  !a.isNaN && !b.isNaN && decide (a.key < b.key)

/-- The Go comparison `a <= b` on `float64`. -/
def Float64.le (a b : Float64) : Bool :=
  !a.isNaN && !b.isNaN && decide (a.key ≤ b.key)

/-- The Go comparison `a == b` on `float64`. -/
def Float64.eq (a b : Float64) : Bool :=
  !a.isNaN && !b.isNaN && decide (a.key = b.key)

/-! ## The type parameter `T` -/

/-- The type set `string | bool | int | uint | float64` of the type parameter. -/
inductive Ty where
  | string
  | bool
  | int
  | uint
  | float64
  deriving DecidableEq, Repr

/-- The values of each supported type. -/
@[reducible] def Ty.type : Ty → Type
  | .string => String
  | .bool => Bool
  | .int => Int
  | .uint => Nat
  | .float64 => Float64

/-- The zero value of `T`: what `var val T` and `*new(T)` hold. -/
def zero : (T : Ty) → T.type
  | .string => ""
  | .bool => false
  | .int => (0 : Int)
  | .uint => (0 : Nat)
  | .float64 => Float64.mk 0

/-- The Go comparison `a == b` at type `T`. -/
def goEq : (T : Ty) → T.type → T.type → Bool
  | .string, a, b => decide (a = b)
  | .bool, a, b => decide (a = b)
  | .int, a, b => decide (a = b)
  | .uint, a, b => decide (a = b)
  | .float64, a, b => Float64.eq a b

/-- The verb `%v` applied to a value of type `T`. -/
def formatV (H : Host) : (T : Ty) → T.type → String
  | .string, s => s
  | .bool, b => if b then "true" else "false"
  | .int, i => formatInt i
  | .uint, n => decimal n
  | .float64, f => H.formatFloat f

/-- The verb `%v` applied to a slice `[]T`: the elements in order, separated by single
spaces, inside square brackets. -/
def formatSlice (H : Host) (T : Ty) (values : List T.type) : String :=
  "[" ++ " ".intercalate (values.map (formatV H T)) ++ "]"

/-- The type set `int | uint | float64` of the ordering rules. -/
inductive Ordered where
  | int
  | uint
  | float64
  deriving DecidableEq, Repr

/-- The ordered types are supported types. -/
@[reducible] def Ordered.ty : Ordered → Ty
  | .int => .int
  | .uint => .uint
  | .float64 => .float64

/-- The Go comparison `a < b` at an ordered type. -/
def goLt : (T : Ordered) → T.ty.type → T.ty.type → Bool
  | .int, a, b => decide (a < b)
  | .uint, a, b => decide (a < b)
  | .float64, a, b => Float64.lt a b

/-- The Go comparison `a <= b` at an ordered type. -/
def goLe : (T : Ordered) → T.ty.type → T.ty.type → Bool
  | .int, a, b => decide (a ≤ b)
  | .uint, a, b => decide (a ≤ b)
  | .float64, a, b => Float64.le a b

/-! ## The package `envvar` -/

/-- The switch of `getEnvVar` on the type of `val`: the conversion of the raw text
`envVar` to `T`, with the error of the conversion. -/
def convert (H : Host) : (T : Ty) → String → T.type × Option String
  | .string, envVar => (envVar, none)
  | .bool, envVar =>
    ((strconv.ParseBool envVar).1, (strconv.ParseBool envVar).2.map (strconv.NumError.Error H))
  | .int, envVar =>
    ((strconv.Atoi H envVar).1, (strconv.Atoi H envVar).2.map (strconv.NumError.Error H))
  | .uint, envVar =>
    ((strconv.ParseUint H envVar 64).1 % 2 ^ H.arch.intSize,
      (strconv.ParseUint H envVar 64).2.map (strconv.NumError.Error H))
  | .float64, envVar =>
    ((H.ParseFloat envVar).1, (H.ParseFloat envVar).2.map (strconv.NumError.Error H))

/-- Source function `getEnvVar[T](name)` (envvar.go, lines 101-126). -/
def getEnvVar (H : Host) (env : Env) (T : Ty) (name : String) : T.type × Option String :=
  match env name with
  | none => (zero T, some (strconv.Quote H name ++ " is not set"))
  | some envVar => convert H T envVar

/-- Source function `Get[T](name)` (envvar.go, lines 11-14). -/
def Get (H : Host) (env : Env) (T : Ty) (name : String) : T.type :=
  (getEnvVar H env T name).1

/-- Source function `GetWithDefault[T](name, defaultValue)` (envvar.go, lines 16-22). -/
def GetWithDefault (H : Host) (env : Env) (T : Ty) (name : String) (defaultValue : T.type) :
    T.type :=
  match getEnvVar H env T name with
  | (_, some _) => defaultValue
  | (val, none) => val

/-- Source type `ValidationFunc[T]` (envvar.go, line 24): a rule returns `nil` or an error. -/
abbrev ValidationFunc (T : Ty) := T.type → Option String

/-- Source function `GetAndValidate[T](name, validate)` (envvar.go, lines 26-36). -/
def GetAndValidate (H : Host) (env : Env) (T : Ty) (name : String)
    (validate : ValidationFunc T) : T.type × Option String :=
  match getEnvVar H env T name with
  | (val, some err) => (val, some ("could not parse " ++ strconv.Quote H name ++ ": " ++ err))
  | (val, none) =>
    match validate val with
    | some err => (zero T, some (strconv.Quote H name ++ " failed validation: " ++ err))
    | none => (val, none)

/-- Source function `GreaterThan[T](value)` (envvar.go, lines 38-45). -/
def GreaterThan (H : Host) (T : Ordered) (value : T.ty.type) : ValidationFunc T.ty :=
  fun t =>
    if goLe T t value then some ("must be greater than " ++ formatV H T.ty value)
    else none

/-- Source function `LessThan[T](value)` (envvar.go, lines 47-54). -/
def LessThan (H : Host) (T : Ordered) (value : T.ty.type) : ValidationFunc T.ty :=
  fun t =>
    if goLe T value t then some ("must be less than " ++ formatV H T.ty value)
    else none

/-- Source function `Between[T](min, max)` (envvar.go, lines 56-63). -/
def Between (H : Host) (T : Ordered) (min max : T.ty.type) : ValidationFunc T.ty :=
  fun t =>
    if goLt T t min ∨ goLt T max t then
      some ("must be between " ++ formatV H T.ty min ++ " and " ++ formatV H T.ty max)
    else none

/-- The loop of `Within`: whether some element of `values` is `==` to `t`. -/
def found (T : Ty) (t : T.type) : List T.type → Bool
  | [] => false
  | val :: rest => if goEq T t val then true else found T t rest

/-- Source function `Within[T](values)` (envvar.go, lines 65-79). -/
def Within (H : Host) (T : Ty) (values : List T.type) : ValidationFunc T :=
  fun t =>
    if ¬ found T t values then
      some (formatV H T t ++ " not within " ++ formatSlice H T values)
    else none

/-- Source function `ValidEmail()` (envvar.go, lines 81-89). -/
def ValidEmail (H : Host) : ValidationFunc .string :=
  fun s =>
    if ¬ mail.ParseAddressOk H s then some (s ++ " is not a valid email")
    else none

/-- Source function `ValidUrl()` (envvar.go, lines 91-99). -/
def ValidUrl : ValidationFunc .string :=
  fun s =>
    if ¬ url.ParseOk s then some (s ++ " is not a valid url")
    else none

/-! ## Vocabulary of the specification -/

/-- A double quote, the text verbatim, a double quote. -/
def verbatimQuoted (s : String) : String :=
  String.mk (dquote :: (s.data ++ [dquote]))

/-- A name that `%q` leaves unchanged between the quotes: every character is printable
and is neither a double quote nor a backslash. -/
def plainName (H : Host) (s : String) : Bool :=
  s.data.all fun c => strconv.IsPrint H c && c != dquote && c != backslash

/-- The environment that holds exactly the listed variables (the first binding of a
name wins). -/
def envOf (vars : List (String × String)) : Env :=
  fun name => vars.lookup name

/-- A 64-bit host for the concrete scenarios, which use `string`, `int` and `uint` and
ASCII text only; its remaining primitives are not exercised. -/
def host64 : Host where
  arch := .bits64
  isPrintTable := fun _ => false
  ParseFloat := fun s => (Float64.mk 0, some (strconv.syntaxError "ParseFloat" s))
  formatFloat := fun _ => ""
  encodedWordCharsetError := fun _ => false
  netParseIPOk := fun _ => false

/-- A 32-bit host for the concrete scenarios, which use `string`, `int` and `uint` and
ASCII text only; its remaining primitives are not exercised. -/
def host32 : Host where
  arch := .bits32
  isPrintTable := fun _ => false
  ParseFloat := fun s => (Float64.mk 0, some (strconv.syntaxError "ParseFloat" s))
  formatFloat := fun _ => ""
  encodedWordCharsetError := fun _ => false
  netParseIPOk := fun _ => false

/-- The quiet NaN that Go uses (`math.NaN()`, and the result of parsing `NaN`): bit
pattern `0x7FF8000000000001`. -/
def float64NaN : Float64 := Float64.mk 0x7FF8000000000001

/-- The spellings that `strconv.ParseBool` reads as `true`. -/
def trueSpellings : List String := ["1", "t", "T", "TRUE", "true", "True"]

/-- The spellings that `strconv.ParseBool` reads as `false`. -/
def falseSpellings : List String := ["0", "f", "F", "FALSE", "false", "False"]

/-- The number denoted by a list of decimal digit characters read after the
accumulator `acc`: each character appends its digit. -/
def valueOfDigits (acc : Nat) (cs : List Char) : Nat :=
  cs.foldl (fun a c => a * 10 + (c.toNat - 0x30)) acc

/-- The reading of "the raw text denotes the `uint` value `m`" that does not go
through the code: the text is a non-empty sequence of decimal digits, the number they
denote is `m`, and `m` fits the unsigned width of the platform. -/
def denotesUint (H : Host) (raw : String) (m : Nat) : Bool :=
  !raw.data.isEmpty && raw.data.all (fun c => decide (0x30 ≤ c.toNat ∧ c.toNat ≤ 0x39))
    && (valueOfDigits 0 raw.data == m) && decide (m < 2 ^ H.arch.intSize)

/-! ## Basic facts about the lookup -/

theorem getEnvVar_unset (H : Host) (env : Env) (T : Ty) (name : String)
    (h : env name = none) :
    getEnvVar H env T name = (zero T, some (strconv.Quote H name ++ " is not set")) := by
  simp [getEnvVar, h]

theorem getEnvVar_set (H : Host) (env : Env) (T : Ty) (name raw : String)
    (h : env name = some raw) :
    getEnvVar H env T name = convert H T raw := by
  simp [getEnvVar, h]

theorem flatMap_appendEscapedRune_plain (H : Host) (l : List Char)
    (h : ∀ c ∈ l, strconv.IsPrint H c = true ∧ c ≠ dquote ∧ c ≠ backslash) :
    l.flatMap (strconv.appendEscapedRune H) = l := by
  induction l with
  | nil => rfl
  | cons c cs ih =>
    have hc := h c (List.mem_cons_self c cs)
    have hcs := ih (fun d hd => h d (List.mem_cons_of_mem c hd))
    simp [List.flatMap_cons, strconv.appendEscapedRune, hc.1, hc.2.1, hc.2.2, hcs]

theorem Quote_plain (H : Host) (s : String) (h : plainName H s = true) :
    strconv.Quote H s = verbatimQuoted s := by
  have h2 : ∀ c ∈ s.data, strconv.IsPrint H c = true ∧ c ≠ dquote ∧ c ≠ backslash := by
    intro c hc
    have := (List.all_eq_true.mp h) c hc
    simpa [Bool.and_eq_true, and_assoc] using this
  simp [strconv.Quote, verbatimQuoted, flatMap_appendEscapedRune_plain H s.data h2]

/-! ## Error and success paths of `GetAndValidate` and `GetWithDefault` -/

/-- C1 (the code departs from it): with `INT_VAR=9223372036854775808`, one past the
largest 64-bit `int`, `strconv.Atoi` reports a range error together with the largest
`int`; `getEnvVar` passes both on and `GetAndValidate`, whatever the rule, returns the
value `9223372036854775807` with a non-nil error, not the zero value `0`. -/
theorem C1_out_of_range_int_returned_with_error (validate : ValidationFunc .int) :
    GetAndValidate host64 (envOf [("INT_VAR", "9223372036854775808")]) .int "INT_VAR" validate
        = (9223372036854775807,
            some ("could not parse \"INT_VAR\": strconv.Atoi: parsing " ++
              "\"9223372036854775808\": value out of range"))
      ∧ (9223372036854775807 : Int) ≠ zero .int := by
  constructor
  · rfl
  · decide

/-- The result of `GetWithDefault` in terms of the conversion of `getEnvVar`: the
converted value when the variable is set and the conversion reports no error, the
default otherwise. -/
theorem GetWithDefault_eq_of_convert (H : Host) (env : Env) (T : Ty) (name : String)
    (d : T.type) :
    GetWithDefault H env T name d =
      match env name with
      | some raw => if (convert H T raw).2 = none then (convert H T raw).1 else d
      | none => d := by
  unfold GetWithDefault getEnvVar
  cases hn : env name with
  | none => simp
  | some raw =>
    simp only []
    rcases hc : convert H T raw with ⟨v, _ | e⟩ <;> simp

/-- The nil-error case of `GetAndValidate` in terms of the conversion of `getEnvVar`:
the error is nil exactly when the variable is set, the conversion reports no error and
the rule accepts the converted value, which is then returned. With `INT_VAR=3` and
`GreaterThan(2)` the result is `(3, nil)`. -/
theorem GetAndValidate_nil_iff_of_convert (H : Host) (env : Env) (T : Ty) (name : String)
    (validate : ValidationFunc T) :
    ((GetAndValidate H env T name validate).2 = none ↔
        ∃ raw, env name = some raw ∧ (convert H T raw).2 = none
          ∧ validate (convert H T raw).1 = none)
      ∧ (∀ raw, env name = some raw → (convert H T raw).2 = none →
          validate (convert H T raw).1 = none →
          GetAndValidate H env T name validate = ((convert H T raw).1, none))
      ∧ GetAndValidate host64 (envOf [("INT_VAR", "3")]) .int "INT_VAR"
          (GreaterThan host64 .int 2) = (3, none) := by
  refine ⟨?_, ?_, by decide⟩
  · unfold GetAndValidate getEnvVar
    cases hn : env name with
    | none => simp
    | some raw =>
      simp only []
      rcases hc : convert H T raw with ⟨v, _ | e⟩
      · cases hv : validate v <;> simp [hv, hc]
      · simp [hc]
  · intro raw hn hc hv
    unfold GetAndValidate getEnvVar
    simp only [hn]
    rcases hc2 : convert H T raw with ⟨v, _ | e⟩
    · rw [hc2] at hv
      simp only [] at hv
      simp [hv]
    · rw [hc2] at hc
      simp at hc

/-- C2 (the code departs from it): on a 32-bit platform the text `4294967296` denotes no
`uint` (it is one past the largest), so the claim has `GetWithDefault("UINT_VAR", 7)`
return the default 7; the code returns 0, the text read with 64 bits and then narrowed
to 32. On a 64-bit platform the same text is a `uint` and is returned. -/
theorem C2_GetWithDefault_returns_wrapped_uint :
    (∀ m : Nat, denotesUint host32 "4294967296" m = false)
      ∧ envOf [("UINT_VAR", "4294967296")] "UINT_VAR" = some "4294967296"
      ∧ GetWithDefault host32 (envOf [("UINT_VAR", "4294967296")]) .uint "UINT_VAR" 7 = 0
      ∧ (0 : Nat) ≠ 7
      ∧ denotesUint host64 "4294967296" 4294967296 = true
      ∧ GetWithDefault host64 (envOf [("UINT_VAR", "4294967296")]) .uint "UINT_VAR" 7
          = 4294967296 := by
  refine ⟨?_, by decide, by decide, by decide, by decide, by decide⟩
  intro m
  have hv : valueOfDigits 0 "4294967296".data = 4294967296 := by decide
  by_cases hm : m = 4294967296
  · subst hm
    simp [denotesUint, host32, Arch.intSize]
  · have hne : ¬ (4294967296 = m) := fun e => hm e.symm
    simp [denotesUint, hv, hne]

/-- C3 (the code departs from it): on a 32-bit platform the text `4294967301` denotes no
`uint`, so the claim has `GetAndValidate("UINT_VAR", GreaterThan(0))` return a non-nil
error; the code returns `(5, nil)`, the text read with 64 bits and then narrowed to 32,
although the variable's text does not parse as the platform's `uint`. -/
theorem C3_GetAndValidate_accepts_wrapped_uint :
    (∀ m : Nat, denotesUint host32 "4294967301" m = false)
      ∧ envOf [("UINT_VAR", "4294967301")] "UINT_VAR" = some "4294967301"
      ∧ GetAndValidate host32 (envOf [("UINT_VAR", "4294967301")]) .uint "UINT_VAR"
          (GreaterThan host32 .uint 0) = (5, none) := by
  refine ⟨?_, by decide, by decide⟩
  intro m
  have hv : valueOfDigits 0 "4294967301".data = 4294967301 := by decide
  by_cases hm : m = 4294967301
  · subst hm
    simp [denotesUint, host32, Arch.intSize]
  · have hne : ¬ (4294967301 = m) := fun e => hm e.symm
    simp [denotesUint, hv, hne]

/-! ## Error texts: the name is printed with `%q` -/

/-- C4, counterexample to the claim as stated: the variable `A"B` is set to `5`, which
converts to the `int` 5, and `GreaterThan(10)` rejects 5 with reason
`must be greater than 10`; the error text of `GetAndValidate` is
`"A\"B" failed validation: must be greater than 10`, with the quote inside the name
escaped, and not the name verbatim between double quotes. -/
theorem C4_counterexample_name_with_quote :
    envOf [("A\"B", "5")] "A\"B" = some "5"
      ∧ convert host64 .int "5" = (5, none)
      ∧ GreaterThan host64 .int 10 5 = some "must be greater than 10"
      ∧ GetAndValidate host64 (envOf [("A\"B", "5")]) .int "A\"B" (GreaterThan host64 .int 10)
          = (0, some "\"A\\\"B\" failed validation: must be greater than 10")
      ∧ GetAndValidate host64 (envOf [("A\"B", "5")]) .int "A\"B" (GreaterThan host64 .int 10)
          ≠ (zero .int,
              some (verbatimQuoted "A\"B" ++ " failed validation: " ++ "must be greater than 10")) := by
  refine ⟨by decide, by decide, by decide, by decide, by decide⟩

/-- C4 as amended: when the variable is set to text that converts to a value `v` of `T`
and the rule rejects `v` with reason `r`, `GetAndValidate` returns the zero value of `T`
and the error text `<q> failed validation: <r>`, where `<q>` is the name as printed by
`%q` (`strconv.Quote`); for a name of printable characters without double quote and
backslash, `<q>` is the name verbatim between double quotes. -/
theorem C4_validation_failure_zero_and_text (H : Host) (env : Env) (T : Ty) (name : String)
    (validate : ValidationFunc T) (raw r : String)
    (hset : env name = some raw) (hconv : (convert H T raw).2 = none)
    (hrej : validate (convert H T raw).1 = some r) :
    GetAndValidate H env T name validate
        = (zero T, some (strconv.Quote H name ++ " failed validation: " ++ r))
      ∧ (plainName H name = true → strconv.Quote H name = verbatimQuoted name) := by
  refine ⟨?_, Quote_plain H name⟩
  unfold GetAndValidate
  rw [getEnvVar_set H env T name raw hset]
  rcases hc : convert H T raw with ⟨v, _ | e⟩
  · rw [hc] at hrej
    simp only [] at hrej
    simp [hrej]
  · rw [hc] at hconv
    simp at hconv

/-- C4, the scenario of the test suite: `INT_VAR=5` with `GreaterThan(10)` returns 0 and
the error `"INT_VAR" failed validation: must be greater than 10`. -/
theorem C4_validation_failure_zero_and_text_witness :
    envOf [("INT_VAR", "5")] "INT_VAR" = some "5"
      ∧ (convert host64 .int "5").2 = none
      ∧ GreaterThan host64 .int 10 (convert host64 .int "5").1 = some "must be greater than 10"
      ∧ GetAndValidate host64 (envOf [("INT_VAR", "5")]) .int "INT_VAR"
          (GreaterThan host64 .int 10)
          = (0, some "\"INT_VAR\" failed validation: must be greater than 10") :=
  ⟨by decide, by decide, by decide,
    (C4_validation_failure_zero_and_text host64 (envOf [("INT_VAR", "5")]) .int "INT_VAR"
      (GreaterThan host64 .int 10) "5" "must be greater than 10"
      (by decide) (by decide) (by decide)).1.trans (by decide)⟩

/-- C5, counterexample to the claim as stated: the name `NOT\SET` is unset, lookup
fails with the cause `"NOT\\SET" is not set`, and the error text of `GetAndValidate`
is `could not parse "NOT\\SET": "NOT\\SET" is not set`: the backslash of the name is
doubled, so the text is not `could not parse "<name>": <cause>` with the name
verbatim. -/
theorem C5_counterexample_name_with_backslash :
    (getEnvVar host64 (envOf []) .int "NOT\\SET").2 = some "\"NOT\\\\SET\" is not set"
      ∧ GetAndValidate host64 (envOf []) .int "NOT\\SET" (GreaterThan host64 .int 0)
          = (0, some "could not parse \"NOT\\\\SET\": \"NOT\\\\SET\" is not set")
      ∧ (GetAndValidate host64 (envOf []) .int "NOT\\SET" (GreaterThan host64 .int 0)).2
          ≠ some ("could not parse " ++ verbatimQuoted "NOT\\SET" ++ ": " ++
              "\"NOT\\\\SET\" is not set") := by
  refine ⟨by decide, by decide, by decide⟩

/-- C5 as amended: when lookup of the name as `T` fails with error text `cause`, the
error of `GetAndValidate` has the text `could not parse <q>: <cause>`, where `<q>` is
the name as printed by `%q` (`strconv.Quote`); the result is the same for every rule,
so the rule is not applied and the error is never a validation error. For a name of printable characters without
double quote and backslash, `<q>` is the name verbatim between double quotes. -/
theorem C5_retrieval_failure_ignores_rule (H : Host) (env : Env) (T : Ty) (name : String)
    (cause : String) (validate : ValidationFunc T)
    (hfail : (getEnvVar H env T name).2 = some cause) :
    (GetAndValidate H env T name validate).2
        = some ("could not parse " ++ strconv.Quote H name ++ ": " ++ cause)
      ∧ (∀ other : ValidationFunc T,
          GetAndValidate H env T name other = GetAndValidate H env T name validate)
      ∧ (plainName H name = true → strconv.Quote H name = verbatimQuoted name) := by
  have key : ∀ f : ValidationFunc T, GetAndValidate H env T name f
      = ((getEnvVar H env T name).1,
          some ("could not parse " ++ strconv.Quote H name ++ ": " ++ cause)) := by
    intro f
    unfold GetAndValidate
    rcases hg : getEnvVar H env T name with ⟨v, _ | e⟩
    · rw [hg] at hfail
      simp at hfail
    · rw [hg] at hfail
      simp only [Option.some.injEq] at hfail
      simp [hfail]
  exact ⟨congrArg Prod.snd (key validate), fun other => (key other).trans (key validate).symm,
    Quote_plain H name⟩

/-- C5, the scenario of the test suite: `INT_VAR=abc` read as `int` gives
`could not parse "INT_VAR": strconv.Atoi: parsing "abc": invalid syntax`. -/
theorem C5_retrieval_failure_ignores_rule_witness :
    (getEnvVar host64 (envOf [("INT_VAR", "abc")]) .int "INT_VAR").2
        = some "strconv.Atoi: parsing \"abc\": invalid syntax"
      ∧ (GetAndValidate host64 (envOf [("INT_VAR", "abc")]) .int "INT_VAR"
          (GreaterThan host64 .int 0)).2
          = some "could not parse \"INT_VAR\": strconv.Atoi: parsing \"abc\": invalid syntax" :=
  ⟨by decide,
    (C5_retrieval_failure_ignores_rule host64 (envOf [("INT_VAR", "abc")]) .int "INT_VAR"
      "strconv.Atoi: parsing \"abc\": invalid syntax" (GreaterThan host64 .int 0)
      (by decide)).1.trans (by decide)⟩

/-- C6, counterexample to the claim as stated: the name `MY"VAR` is absent from the
environment and the error text of the lookup is `"MY\"VAR" is not set`, which is not a
double quote, the name verbatim, a double quote and ` is not set`. -/
theorem C6_counterexample_unset_name_with_quote :
    envOf [] "MY\"VAR" = none
      ∧ (getEnvVar host64 (envOf []) .string "MY\"VAR").2 = some "\"MY\\\"VAR\" is not set"
      ∧ (getEnvVar host64 (envOf []) .string "MY\"VAR").2
          ≠ some (verbatimQuoted "MY\"VAR" ++ " is not set") := by
  refine ⟨by decide, by decide, by decide⟩

/-- C6 as amended: for a name absent from the environment, every `T` and every rule,
lookup fails with the error text `<q> is not set`, `Get` returns the zero value of
`T`, and `GetAndValidate` returns the zero value of `T` with the error text
`could not parse <q>: <q> is not set`, where `<q>` is the name as printed by `%q`
(`strconv.Quote`); for a name of printable characters without double quote and
backslash, `<q>` is the name verbatim between double quotes. -/
theorem C6_unset_name (H : Host) (env : Env) (T : Ty) (name : String)
    (validate : ValidationFunc T) (hunset : env name = none) :
    getEnvVar H env T name = (zero T, some (strconv.Quote H name ++ " is not set"))
      ∧ Get H env T name = zero T
      ∧ GetAndValidate H env T name validate
          = (zero T, some ("could not parse " ++ strconv.Quote H name ++ ": " ++
              (strconv.Quote H name ++ " is not set")))
      ∧ (plainName H name = true → strconv.Quote H name = verbatimQuoted name) := by
  have hg := getEnvVar_unset H env T name hunset
  refine ⟨hg, ?_, ?_, Quote_plain H name⟩
  · simp [Get, hg]
  · simp [GetAndValidate, hg]

/-- C6, the scenario of the test suite: `NOT_SET` is unset and `GetAndValidate` with
`GreaterThan(0)` returns 0 and `could not parse "NOT_SET": "NOT_SET" is not set`. -/
theorem C6_unset_name_witness :
    envOf [] "NOT_SET" = none
      ∧ plainName host64 "NOT_SET" = true
      ∧ (getEnvVar host64 (envOf []) .int "NOT_SET").2 = some "\"NOT_SET\" is not set"
      ∧ GetAndValidate host64 (envOf []) .int "NOT_SET" (GreaterThan host64 .int 0)
          = (0, some "could not parse \"NOT_SET\": \"NOT_SET\" is not set") :=
  ⟨by decide, by decide, by decide,
    (C6_unset_name host64 (envOf []) .int "NOT_SET" (GreaterThan host64 .int 0)
      (by decide)).2.2.1.trans (by decide)⟩

/-! ## The ordering rules on `int` and `uint` -/

/-- C7: for `int` and for `uint`, `GreaterThan(b)` applied to `v` returns no error
exactly when `v > b` (so `v == b` is rejected), and a rejection has the reason
`must be greater than <b>` with `b` in decimal; for instance bound 10 and value 5 give
`must be greater than 10`, and bound -3 gives `must be greater than -3`. -/
theorem C7_GreaterThan_strict (H : Host) :
    (∀ b v : Int,
        (GreaterThan H .int b v = none ↔ v > b)
          ∧ GreaterThan H .int b v
              = if v > b then none else some ("must be greater than " ++ formatInt b))
      ∧ (∀ b v : Nat,
        (GreaterThan H .uint b v = none ↔ v > b)
          ∧ GreaterThan H .uint b v
              = if v > b then none else some ("must be greater than " ++ decimal b))
      ∧ GreaterThan host64 .int 10 5 = some "must be greater than 10"
      ∧ GreaterThan host64 .int 10 10 = some "must be greater than 10"
      ∧ GreaterThan host64 .int (-3) (-7) = some "must be greater than -3"
      ∧ GreaterThan host64 .uint 10 11 = none := by
  refine ⟨?_, ?_, by decide, by decide, by decide, by decide⟩
  · intro b v
    by_cases h : v > b
    · have h2 : ¬ v ≤ b := not_le.mpr h
      simp [GreaterThan, goLe, formatV, h, h2]
    · have h2 : v ≤ b := not_lt.mp h
      simp [GreaterThan, goLe, formatV, h, h2]
  · intro b v
    by_cases h : v > b
    · have h2 : ¬ v ≤ b := not_le.mpr h
      simp [GreaterThan, goLe, formatV, h, h2]
    · have h2 : v ≤ b := not_lt.mp h
      simp [GreaterThan, goLe, formatV, h, h2]

/-- C8: for `int` and for `uint`, `LessThan(b)` applied to `v` returns no error exactly
when `v < b` (so `v == b` is rejected), and a rejection has the reason
`must be less than <b>` with `b` in decimal; for instance bound 3 and value 5 give
`must be less than 3`, and bound 4 accepts 3. -/
theorem C8_LessThan_strict (H : Host) :
    (∀ b v : Int,
        (LessThan H .int b v = none ↔ v < b)
          ∧ LessThan H .int b v
              = if v < b then none else some ("must be less than " ++ formatInt b))
      ∧ (∀ b v : Nat,
        (LessThan H .uint b v = none ↔ v < b)
          ∧ LessThan H .uint b v
              = if v < b then none else some ("must be less than " ++ decimal b))
      ∧ LessThan host64 .int 3 5 = some "must be less than 3"
      ∧ LessThan host64 .int 3 3 = some "must be less than 3"
      ∧ LessThan host64 .int 4 3 = none
      ∧ LessThan host64 .uint 7 9 = some "must be less than 7" := by
  refine ⟨?_, ?_, by decide, by decide, by decide, by decide⟩
  · intro b v
    by_cases h : v < b
    · have h2 : ¬ b ≤ v := not_le.mpr h
      simp [LessThan, goLe, formatV, h, h2]
    · have h2 : b ≤ v := not_lt.mp h
      simp [LessThan, goLe, formatV, h, h2]
  · intro b v
    by_cases h : v < b
    · have h2 : ¬ b ≤ v := not_le.mpr h
      simp [LessThan, goLe, formatV, h, h2]
    · have h2 : b ≤ v := not_lt.mp h
      simp [LessThan, goLe, formatV, h, h2]

/-- C9: for `int` and for `uint`, `Between(min, max)` applied to `v` returns no error
exactly when `min <= v` and `v <= max`, so both ends are accepted whenever
`min <= max`, and a rejection has the reason `must be between <min> and <max>`; for
instance `Between(0, 10)` rejects -1 and 11 with `must be between 0 and 10`. -/
theorem C9_Between_closed (H : Host) :
    (∀ lo hi v : Int,
        (Between H .int lo hi v = none ↔ lo ≤ v ∧ v ≤ hi)
          ∧ Between H .int lo hi v
              = if lo ≤ v ∧ v ≤ hi then none
                else some ("must be between " ++ formatInt lo ++ " and " ++ formatInt hi))
      ∧ (∀ lo hi v : Nat,
        (Between H .uint lo hi v = none ↔ lo ≤ v ∧ v ≤ hi)
          ∧ Between H .uint lo hi v
              = if lo ≤ v ∧ v ≤ hi then none
                else some ("must be between " ++ decimal lo ++ " and " ++ decimal hi))
      ∧ (∀ lo hi : Int, lo ≤ hi →
          Between H .int lo hi lo = none ∧ Between H .int lo hi hi = none)
      ∧ (∀ lo hi : Nat, lo ≤ hi →
          Between H .uint lo hi lo = none ∧ Between H .uint lo hi hi = none)
      ∧ Between host64 .int 0 10 (-1) = some "must be between 0 and 10"
      ∧ Between host64 .int 0 10 11 = some "must be between 0 and 10"
      ∧ Between host64 .int 0 10 3 = none := by
  have hint : ∀ lo hi v : Int,
      (Between H .int lo hi v = none ↔ lo ≤ v ∧ v ≤ hi)
        ∧ Between H .int lo hi v
            = if lo ≤ v ∧ v ≤ hi then none
              else some ("must be between " ++ formatInt lo ++ " and " ++ formatInt hi) := by
    intro lo hi v
    by_cases h : lo ≤ v ∧ v ≤ hi
    · have h1 : ¬ v < lo := not_lt.mpr h.1
      have h2 : ¬ hi < v := not_lt.mpr h.2
      simp [Between, goLt, formatV, h, h1, h2]
    · have h3 : v < lo ∨ hi < v := by
        by_contra hc
        push_neg at hc
        exact h hc
      simp [Between, goLt, formatV, h, h3]
  have huint : ∀ lo hi v : Nat,
      (Between H .uint lo hi v = none ↔ lo ≤ v ∧ v ≤ hi)
        ∧ Between H .uint lo hi v
            = if lo ≤ v ∧ v ≤ hi then none
              else some ("must be between " ++ decimal lo ++ " and " ++ decimal hi) := by
    intro lo hi v
    by_cases h : lo ≤ v ∧ v ≤ hi
    · have h1 : ¬ v < lo := not_lt.mpr h.1
      have h2 : ¬ hi < v := not_lt.mpr h.2
      simp [Between, goLt, formatV, h, h1, h2]
    · have h3 : v < lo ∨ hi < v := by
        by_contra hc
        push_neg at hc
        exact h hc
      simp [Between, goLt, formatV, h, h3]
  refine ⟨hint, huint, ?_, ?_, by decide, by decide, by decide⟩
  · intro lo hi hle
    exact ⟨(hint lo hi lo).1.mpr ⟨le_refl lo, hle⟩, (hint lo hi hi).1.mpr ⟨hle, le_refl hi⟩⟩
  · intro lo hi hle
    exact ⟨(huint lo hi lo).1.mpr ⟨le_refl lo, hle⟩, (huint lo hi hi).1.mpr ⟨hle, le_refl hi⟩⟩

/-! ## Membership: `Within` -/

theorem goEq_iff_eq (T : Ty) (hT : T ≠ .float64) (a b : T.type) :
    goEq T a b = true ↔ a = b := by
  cases T <;> first | exact absurd rfl hT | simp [goEq]

theorem found_iff_mem (T : Ty) (hT : T ≠ .float64) (t : T.type) (values : List T.type) :
    found T t values = true ↔ t ∈ values := by
  induction values with
  | nil => simp [found]
  | cons val rest ih =>
    by_cases h : goEq T t val = true
    · have heq : t = val := (goEq_iff_eq T hT t val).mp h
      unfold found
      rw [if_pos h]
      simp [heq]
    · have hne : t ≠ val := fun e => h ((goEq_iff_eq T hT t val).mpr e)
      simp [found, h, hne, ih]

/-- C10: for `T` among `string`, `bool`, `int`, `uint`, every list `values` (the empty
list included) and every `v`, `Within(values)` applied to `v` returns no error exactly
when `v` equals some element of `values`; a rejection has the reason
`<v> not within [<e1> <e2> ... <en>]`, the elements in list order, separated by single
spaces, inside square brackets. -/
theorem C10_Within_membership (H : Host) (T : Ty) (values : List T.type) (v : T.type)
    (hT : T ≠ .float64) :
    (Within H T values v = none ↔ v ∈ values)
      ∧ (v ∉ values →
          Within H T values v
            = some (formatV H T v ++ " not within " ++
                ("[" ++ " ".intercalate (values.map (formatV H T)) ++ "]"))) := by
  have hf := found_iff_mem T hT v values
  by_cases h : v ∈ values
  · have h1 : found T v values = true := hf.mpr h
    simp [Within, h, h1]
  · have h1 : ¬ found T v values = true := fun e => h (hf.mp e)
    simp [Within, formatSlice, h, h1]

/-- C10, the scenarios of the test suite and the empty list: `develop` is rejected with
`develop not within [development testing staging production]`, `development` is
accepted, and the empty list rejects with `... not within []`. -/
theorem C10_Within_membership_witness :
    Ty.string ≠ Ty.float64
      ∧ Within host64 .string ["development", "testing", "staging", "production"] "develop"
          = some "develop not within [development testing staging production]"
      ∧ Within host64 .string ["development", "testing", "staging", "production"]
          "development" = none
      ∧ Within host64 .int [] 7 = some "7 not within []"
      ∧ Within host64 .bool [true] false = some "false not within [true]"
      ∧ Within host64 .uint [1, 2, 3] 4 = some "4 not within [1 2 3]" :=
  ⟨by decide,
    ((C10_Within_membership host64 .string
      ["development", "testing", "staging", "production"] "develop" (by decide)).2
        (by decide)).trans (by decide),
    by decide, by decide, by decide, by decide⟩

/-- C11: for `T` among `string`, `bool`, `int`, `uint` and two lists with the same
elements (a permutation, or a list that differs only by repetitions), `Within(xs)` and
`Within(ys)` accept exactly the same values. -/
theorem C11_Within_same_elements (H : Host) (T : Ty) (xs ys : List T.type) (v : T.type)
    (hT : T ≠ .float64) (hsame : ∀ x, x ∈ xs ↔ x ∈ ys) :
    Within H T xs v = none ↔ Within H T ys v = none := by
  have hx := found_iff_mem T hT v xs
  have hy := found_iff_mem T hT v ys
  have hxy : found T v xs = found T v ys := by
    rw [Bool.eq_iff_iff, hx, hy]
    exact hsame v
  simp [Within, hxy]

/-- C11, an instance: `[a b]` and `[b a a]` hold the same elements, in another order and
with a repetition, and `Within` of either accepts `b` and rejects `c`. -/
theorem C11_Within_same_elements_witness :
    Ty.string ≠ Ty.float64
      ∧ (∀ x : String, x ∈ ["a", "b"] ↔ x ∈ ["b", "a", "a"])
      ∧ (Within host64 .string ["a", "b"] "c" = none
          ↔ Within host64 .string ["b", "a", "a"] "c" = none)
      ∧ Within host64 .string ["a", "b"] "b" = none
      ∧ Within host64 .string ["b", "a", "a"] "b" = none
      ∧ Within host64 .string ["a", "b"] "c" = some "c not within [a b]"
      ∧ Within host64 .string ["b", "a", "a"] "c" = some "c not within [b a a]" :=
  ⟨by decide, by intro x; simp [or_comm],
    C11_Within_same_elements host64 .string ["a", "b"] ["b", "a", "a"] "c" (by decide)
      (by intro x; simp [or_comm]),
    by decide, by decide, by decide, by decide⟩

/-- C13: for `T = string` and a name present in the environment with raw text `s` (the
empty string included), `Get` returns `s`, `GetWithDefault` returns `s` and never the
default, the lookup has no error, and `GetAndValidate` returns `(s, nil)` when the rule
accepts `s` and a validation error, never a retrieval error, when it rejects. -/
theorem C13_string_identity (H : Host) (env : Env) (name s d : String)
    (validate : ValidationFunc .string) (hset : env name = some s) :
    getEnvVar H env .string name = (s, none)
      ∧ Get H env .string name = s
      ∧ GetWithDefault H env .string name d = s
      ∧ GetAndValidate H env .string name validate
          = match validate s with
            | none => (s, none)
            | some r => ("", some (strconv.Quote H name ++ " failed validation: " ++ r)) := by
  have hg : getEnvVar H env .string name = (s, none) := by
    rw [getEnvVar_set H env .string name s hset]
    rfl
  refine ⟨hg, ?_, ?_, ?_⟩
  · simp [Get, hg]
  · simp [GetWithDefault, hg]
  · unfold GetAndValidate
    rw [hg]
    cases hv : validate s <;> simp [hv, zero]

/-- C13, the scenario of the test suite and the empty text: `STRING_VAR=abc` is read as
`abc`, and a variable set to the empty string is read as the empty string, not as the
default. -/
theorem C13_string_identity_witness :
    envOf [("STRING_VAR", "abc"), ("EMPTY", "")] "EMPTY" = some ""
      ∧ GetWithDefault host64 (envOf [("STRING_VAR", "abc"), ("EMPTY", "")]) .string
          "EMPTY" "fallback" = ""
      ∧ Get host64 (envOf [("STRING_VAR", "abc"), ("EMPTY", "")]) .string "STRING_VAR" = "abc" :=
  ⟨by decide,
    (C13_string_identity host64 (envOf [("STRING_VAR", "abc"), ("EMPTY", "")]) "EMPTY" ""
      "fallback" (fun _ => none) (by decide)).2.2.1,
    by decide⟩

/-! ## Conversions of the raw text -/

theorem ParseBool_true (s : String) (h : s ∈ trueSpellings) :
    strconv.ParseBool s = (true, none) := by
  simp only [trueSpellings, List.mem_cons, List.mem_singleton, List.not_mem_nil, or_false] at h
  rcases h with h | h | h | h | h | h <;> subst h <;> decide

theorem ParseBool_false (s : String) (h : s ∈ falseSpellings) :
    strconv.ParseBool s = (false, none) := by
  simp only [falseSpellings, List.mem_cons, List.mem_singleton, List.not_mem_nil, or_false] at h
  rcases h with h | h | h | h | h | h <;> subst h <;> decide

theorem ParseBool_other (s : String) (ht : s ∉ trueSpellings) (hf : s ∉ falseSpellings) :
    strconv.ParseBool s = (false, some (strconv.syntaxError "ParseBool" s)) := by
  simp only [trueSpellings, List.mem_cons, List.mem_singleton, List.not_mem_nil, or_false] at ht
  simp only [falseSpellings, List.mem_cons, List.mem_singleton, List.not_mem_nil, or_false] at hf
  have ht2 : ¬ (s = "1" ∨ s = "t" ∨ s = "T" ∨ s = "true" ∨ s = "TRUE" ∨ s = "True") := by
    intro h
    apply ht
    rcases h with h | h | h | h | h | h <;> simp [h]
  have hf2 : ¬ (s = "0" ∨ s = "f" ∨ s = "F" ∨ s = "false" ∨ s = "FALSE" ∨ s = "False") := by
    intro h
    apply hf
    rcases h with h | h | h | h | h | h <;> simp [h]
  unfold strconv.ParseBool
  rw [if_neg ht2, if_neg hf2]

/-- C14: for `T = bool` and every raw text `s`, the conversion succeeds with `true`
exactly when `s` is one of `1 t T TRUE true True`, succeeds with `false` exactly when
`s` is one of `0 f F FALSE false False`, and for every other string fails with the
syntax error of `strconv.ParseBool`, so that `GetWithDefault` returns the default; the
empty string, `yes`, `tRuE` and ` true` are such strings. -/
theorem C14_bool_spellings (H : Host) (s : String) :
    (convert H .bool s = (true, none) ↔ s ∈ trueSpellings)
      ∧ (convert H .bool s = (false, none) ↔ s ∈ falseSpellings)
      ∧ ((s ∉ trueSpellings ∧ s ∉ falseSpellings) ↔
          convert H .bool s
            = (false, some ("strconv.ParseBool: parsing " ++ strconv.Quote H s ++
                ": invalid syntax")))
      ∧ (∀ (env : Env) (name : String) (d : Bool), env name = some s →
          s ∉ trueSpellings → s ∉ falseSpellings →
          GetWithDefault H env .bool name d = d)
      ∧ (∀ s0 ∈ ["", "yes", "tRuE", " true"], ∀ d : Bool,
          (convert host64 .bool s0).2 ≠ none
            ∧ GetWithDefault host64 (envOf [("BOOL_VAR", s0)]) .bool "BOOL_VAR" d = d) := by
  have hc : convert H .bool s
      = ((strconv.ParseBool s).1,
          (strconv.ParseBool s).2.map (strconv.NumError.Error H)) := rfl
  have hother : s ∉ trueSpellings → s ∉ falseSpellings →
      convert H .bool s
        = (false, some ("strconv.ParseBool: parsing " ++ strconv.Quote H s ++
            ": invalid syntax")) := by
    intro ht hf
    rw [hc, ParseBool_other s ht hf]
    simp [strconv.NumError.Error, strconv.syntaxError, strconv.ErrKind.Error,
      String.append_assoc]
  by_cases ht : s ∈ trueSpellings
  · have hnf : s ∉ falseSpellings := by
      simp only [trueSpellings, List.mem_cons, List.mem_singleton, List.not_mem_nil,
        or_false] at ht
      rcases ht with h | h | h | h | h | h <;> subst h <;> decide
    have hv : convert H .bool s = (true, none) := by
      rw [hc, ParseBool_true s ht]
      rfl
    refine ⟨by simp [hv, ht], by simp [hv, hnf], by simp [hv, ht], ?_, ?_⟩
    · intro env name d _ hnt _
      exact absurd ht hnt
    · intro s0 hs0 d
      simp only [List.mem_cons, List.mem_singleton, List.not_mem_nil, or_false] at hs0
      rcases hs0 with h | h | h | h <;> subst h <;> cases d <;> decide
  · by_cases hf : s ∈ falseSpellings
    · have hv : convert H .bool s = (false, none) := by
        rw [hc, ParseBool_false s hf]
        rfl
      refine ⟨by simp [hv, ht], by simp [hv, hf], by simp [hv, hf], ?_, ?_⟩
      · intro env name d _ _ hnf
        exact absurd hf hnf
      · intro s0 hs0 d
        simp only [List.mem_cons, List.mem_singleton, List.not_mem_nil, or_false] at hs0
        rcases hs0 with h | h | h | h <;> subst h <;> cases d <;> decide
    · have hv := hother ht hf
      refine ⟨by simp [hv, ht], by simp [hv, hf], by simp [hv, ht, hf], ?_, ?_⟩
      · intro env name d hset _ _
        simp [GetWithDefault, getEnvVar, hset, hv]
      · intro s0 hs0 d
        simp only [List.mem_cons, List.mem_singleton, List.not_mem_nil, or_false] at hs0
        rcases hs0 with h | h | h | h <;> subst h <;> cases d <;> decide

/-- C15 (the code departs from it): on a 32-bit platform `UINT_VAR=4294967296`, one
past the largest `uint`, is read by `strconv.ParseUint(envVar, 10, 64)` without error
and then narrowed by `uint(res)`, so the lookup returns `0` with a nil error:
`GetWithDefault` returns 0 instead of the default, `GetAndValidate` with
`LessThan(10)` returns `(0, nil)`, and `4294967297` is read as 1. A negative numeral
does fail. -/
theorem C15_uint_wraps_on_32_bit :
    getEnvVar host32 (envOf [("UINT_VAR", "4294967296")]) .uint "UINT_VAR" = (0, none)
      ∧ GetWithDefault host32 (envOf [("UINT_VAR", "4294967296")]) .uint "UINT_VAR" 7 = 0
      ∧ GetAndValidate host32 (envOf [("UINT_VAR", "4294967296")]) .uint "UINT_VAR"
          (LessThan host32 .uint 10) = (0, none)
      ∧ getEnvVar host32 (envOf [("UINT_VAR", "4294967297")]) .uint "UINT_VAR" = (1, none)
      ∧ getEnvVar host32 (envOf [("UINT_VAR", "-1")]) .uint "UINT_VAR"
          = (0, some "strconv.ParseUint: parsing \"-1\": invalid syntax") := by
  refine ⟨by decide, by decide, by decide, by decide, by decide⟩

/-- C16 (the code departs from it): on a 64-bit platform `UINT_VAR=18446744073709551616`,
one past the largest `uint`, makes the lookup fail with a range error while the value
it produces, and `Get[uint]` returns, is `18446744073709551615`; likewise
`INT_VAR=-9223372036854775809` makes `Get[int]` return `-9223372036854775808`. Neither
is the zero value. -/
theorem C16_Get_returns_saturated_value :
    getEnvVar host64 (envOf [("UINT_VAR", "18446744073709551616")]) .uint "UINT_VAR"
        = (18446744073709551615,
            some "strconv.ParseUint: parsing \"18446744073709551616\": value out of range")
      ∧ Get host64 (envOf [("UINT_VAR", "18446744073709551616")]) .uint "UINT_VAR"
          = 18446744073709551615
      ∧ (18446744073709551615 : Nat) ≠ zero .uint
      ∧ (getEnvVar host64 (envOf [("INT_VAR", "-9223372036854775809")]) .int "INT_VAR").2
          = some "strconv.Atoi: parsing \"-9223372036854775809\": value out of range"
      ∧ Get host64 (envOf [("INT_VAR", "-9223372036854775809")]) .int "INT_VAR"
          = -9223372036854775808
      ∧ (-9223372036854775808 : Int) ≠ zero .int := by
  refine ⟨by decide, by decide, by decide, by decide, by decide, by decide⟩

/-! ## The format rules and the rules on `float64` -/

/-! ### The loops of the address parser never run out of fuel -/

namespace mail

theorem dropWhile_length_le (p : Char → Bool) (s : List Char) :
    (s.dropWhile p).length ≤ s.length := by
  induction s with
  | nil => simp
  | cons c rest ih =>
    simp only [List.dropWhile_cons]
    split
    · exact le_trans ih (by simp)
    · simp

theorem skipSpace_length_le (s : List Char) : (skipSpace s).length ≤ s.length :=
  dropWhile_length_le _ s

theorem consumeCommentLoop_length_aux (n : Nat) :
    ∀ (s : List Char) (depth : Nat) (comment : List Char), s.length ≤ n →
      (consumeCommentLoop s depth comment).2.2.length ≤ s.length := by
  induction n using Nat.strong_induction_on with
  | _ n ih =>
    intro s depth comment hn
    match s with
    | [] => simp [consumeCommentLoop]
    | [c] =>
      unfold consumeCommentLoop
      split_ifs <;> simp [consumeCommentLoop]
    | c :: d :: rest =>
      have h1 : ∀ dp cm, (consumeCommentLoop rest dp cm).2.2.length ≤ rest.length :=
        fun dp cm => ih rest.length (by simp at hn; omega) rest dp cm (le_refl _)
      have h2 : ∀ dp cm, (consumeCommentLoop (d :: rest) dp cm).2.2.length
          ≤ (d :: rest).length :=
        fun dp cm => ih (d :: rest).length (by simp at hn ⊢; omega) (d :: rest) dp cm (le_refl _)
      unfold consumeCommentLoop
      split_ifs
      all_goals first
        | exact le_trans (h1 _ _) (by simp; omega)
        | exact le_trans (h2 _ _) (by simp)
        | simp

theorem consumeCommentLoop_length_le (s : List Char) (depth : Nat) (comment : List Char) :
    (consumeCommentLoop s depth comment).2.2.length ≤ s.length :=
  consumeCommentLoop_length_aux s.length s depth comment (le_refl _)

theorem skipCFWSLoop_total (fuel : Nat) :
    ∀ s : List Char, s.length < fuel →
      skipCFWSLoop fuel s ≠ .outOfFuel
        ∧ ∀ r, skipCFWSLoop fuel s = .ok r → r.length ≤ s.length := by
  induction fuel with
  | zero => intro s h; omega
  | succ fuel ih =>
    intro s hlen
    unfold skipCFWSLoop
    split
    · rename_i rest
      split_ifs with hok
      · have hl : (skipSpace (consumeCommentLoop rest 1 []).2.2).length ≤ rest.length :=
          le_trans (skipSpace_length_le _) (consumeCommentLoop_length_le rest 1 [])
        have hrec := ih (skipSpace (consumeCommentLoop rest 1 []).2.2)
          (by simp at hlen; omega)
        refine ⟨hrec.1, fun r hr => ?_⟩
        exact le_trans (hrec.2 r hr) (le_trans hl (by simp))
      · exact ⟨by simp, fun r hr => by simp at hr⟩
    · refine ⟨by simp, fun r hr => ?_⟩
      simp only [Res.ok.injEq] at hr
      subst hr
      exact le_refl _

theorem skipCFWS_total (s : List Char) :
    skipCFWS s ≠ .outOfFuel ∧ ∀ r, skipCFWS s = .ok r → r.length ≤ s.length := by
  have h := skipCFWSLoop_total (s.length + 1) (skipSpace s)
    (Nat.lt_succ_of_le (skipSpace_length_le s))
  exact ⟨h.1, fun r hr => le_trans (h.2 r hr) (skipSpace_length_le s)⟩

theorem takeWhile_dropWhile_length (p : Char → Bool) (s : List Char) :
    (s.takeWhile p).length + (s.dropWhile p).length = s.length := by
  have h := congrArg List.length (List.takeWhile_append_dropWhile p s)
  rw [List.length_append] at h
  exact h

theorem consumeAtom_length_lt (dot permissive : Bool) (s atom rest : List Char)
    (h : consumeAtom dot permissive s = some (atom, rest)) : rest.length < s.length := by
  unfold consumeAtom at h
  simp only at h
  split_ifs at h with h1 h2
  simp only [Option.some.injEq, Prod.mk.injEq] at h
  have hl := takeWhile_dropWhile_length (fun r => isAtext r dot) s
  have hpos : 0 < (s.takeWhile fun r => isAtext r dot).length :=
    List.length_pos.mpr h1
  rw [← h.2]
  omega

theorem quotedStringLoop_length_lt (s : List Char) :
    ∀ (escaped : Bool) (n m : Nat) (rest : List Char),
      quotedStringLoop s escaped n = some (m, rest) → rest.length < s.length := by
  induction s with
  | nil => intro escaped n m rest h; simp [quotedStringLoop] at h
  | cons r tl ih =>
    intro escaped n m rest h
    unfold quotedStringLoop at h
    split_ifs at h
    all_goals first
      | exact Nat.lt_succ_of_lt (ih _ _ _ _ h)
      | (simp only [Option.some.injEq, Prod.mk.injEq] at h
         rw [← h.2]
         simp)

theorem consumeQuotedString_length_lt (s : List Char) (m : Nat) (rest : List Char)
    (h : consumeQuotedString s = some (m, rest)) : rest.length < s.length := by
  unfold consumeQuotedString at h
  have h1 := quotedStringLoop_length_lt s.tail false 0 m rest h
  have h2 : s.tail.length ≤ s.length := by simp
  omega

theorem consumePhraseLoop_total (H : Host) (fuel : Nat) :
    ∀ (s : List Char) (haveWords : Bool), s.length < fuel →
      consumePhraseLoop H fuel s haveWords ≠ .outOfFuel
        ∧ ∀ r, consumePhraseLoop H fuel s haveWords = .ok r → r.length ≤ s.length := by
  induction fuel with
  | zero => intro s hw h; omega
  | succ fuel ih =>
    intro s0 haveWords hlen
    have hstart : ∃ s1, (if haveWords then skipCFWS s0 else Res.ok s0) = Res.ok s1
          ∧ s1.length ≤ s0.length
        ∨ (if haveWords then skipCFWS s0 else Res.ok s0) = Res.fail := by
      by_cases hw : haveWords = true
      · simp only [hw, if_true]
        cases hc : skipCFWS s0 with
        | ok r => exact ⟨r, Or.inl ⟨rfl, (skipCFWS_total s0).2 r hc⟩⟩
        | fail => exact ⟨[], Or.inr rfl⟩
        | outOfFuel => exact absurd hc (skipCFWS_total s0).1
      · simp only [hw]
        exact ⟨s0, Or.inl ⟨rfl, le_refl _⟩⟩
    obtain ⟨s1, hs1⟩ := hstart
    unfold consumePhraseLoop
    rcases hs1 with ⟨he, hl1⟩ | he
    · rw [he]
      simp only
      have hl2 : (skipSpace s1).length ≤ s0.length := le_trans (skipSpace_length_le s1) hl1
      have hstop : ∀ t : List Char, t.length ≤ s0.length →
          (if haveWords = true then Res.ok t else Res.fail) ≠ Res.outOfFuel
            ∧ ∀ r, (if haveWords = true then Res.ok t else Res.fail) = Res.ok r →
                r.length ≤ s0.length := by
        intro t ht
        cases haveWords
        · exact ⟨by simp, fun r hr => by simp at hr⟩
        · exact ⟨by simp, fun r hr => by simp at hr; rw [← hr]; exact ht⟩
      by_cases h1 : skipSpace s1 = []
      · rw [if_pos h1]
        exact ⟨by simp, fun r hr => by simp at hr; rw [← hr]; exact hl2⟩
      · rw [if_neg h1]
        by_cases h2 : (skipSpace s1).head? = some dquote
        · rw [if_pos h2]
          cases hq : consumeQuotedString (skipSpace s1) with
          | none => exact hstop _ hl2
          | some p =>
            obtain ⟨n, rest⟩ := p
            have hlt := consumeQuotedString_length_lt _ _ _ hq
            have hrec := ih rest true (by omega)
            exact ⟨hrec.1, fun r hr => le_trans (hrec.2 r hr) (by omega)⟩
        · rw [if_neg h2]
          cases ha : consumeAtom true true (skipSpace s1) with
          | none => exact hstop _ hl2
          | some p =>
            obtain ⟨atom, rest⟩ := p
            have hlt := consumeAtom_length_lt _ _ _ _ _ ha
            simp only
            by_cases hd : decodeRFC2047WordFails H atom = true
            · rw [if_pos hd]
              exact hstop _ (by omega)
            · rw [if_neg hd]
              have hrec := ih rest true (by omega)
              exact ⟨hrec.1, fun r hr => le_trans (hrec.2 r hr) (by omega)⟩
    · rw [he]
      exact ⟨by simp, fun r hr => by simp at hr⟩

theorem consumePhrase_total (H : Host) (s : List Char) :
    consumePhrase H s ≠ .outOfFuel
      ∧ ∀ r, consumePhrase H s = .ok r → r.length ≤ s.length :=
  consumePhraseLoop_total H (s.length + 1) s false (Nat.lt_succ_self _)

theorem domainLiteralLoop_length_lt (s : List Char) :
    ∀ (dtext d rest : List Char),
      domainLiteralLoop s dtext = some (d, rest) → rest.length < s.length := by
  induction s with
  | nil => intro dtext d rest h; simp [domainLiteralLoop] at h
  | cons r tl ih =>
    intro dtext d rest h
    unfold domainLiteralLoop at h
    split_ifs at h
    all_goals first
      | exact Nat.lt_succ_of_lt (ih _ _ _ h)
      | (simp only [Option.some.injEq, Prod.mk.injEq] at h
         rw [← h.2]
         simp)

theorem consumeDomainLiteral_length_lt (H : Host) (s rest : List Char)
    (h : consumeDomainLiteral H s = some rest) : rest.length < s.length := by
  unfold consumeDomainLiteral at h
  split at h
  · rename_i tl
    cases hd : domainLiteralLoop tl [] with
    | none => simp [hd] at h
    | some p =>
      obtain ⟨dtext, rest2⟩ := p
      have hlt := domainLiteralLoop_length_lt tl [] dtext rest2 hd
      simp only [hd] at h
      split_ifs at h
      simp only [Option.some.injEq] at h
      rw [← h]
      simp
      omega
  · simp at h

theorem consumeDomain_length_lt (H : Host) (afterAt rest : List Char)
    (h : (if skipSpace afterAt = [] then none
      else if (skipSpace afterAt).head? = some '[' then
        consumeDomainLiteral H (skipSpace afterAt)
      else Option.map Prod.snd (consumeAtom true false (skipSpace afterAt))) = some rest) :
    rest.length < afterAt.length := by
  have hd := skipSpace_length_le afterAt
  split_ifs at h with h1 h2
  · have := consumeDomainLiteral_length_lt H _ _ h
    omega
  · cases hc : consumeAtom true false (skipSpace afterAt) with
    | none => simp [hc] at h
    | some p =>
      obtain ⟨a, r⟩ := p
      have hlt := consumeAtom_length_lt _ _ _ _ _ hc
      simp only [hc, Option.map_some', Option.some.injEq] at h
      rw [← h]
      omega

theorem consumeAddrSpec_length_lt (H : Host) (s rest : List Char)
    (h : consumeAddrSpec H s = some rest) : rest.length < s.length := by
  unfold consumeAddrSpec at h
  simp only at h
  have hsp := skipSpace_length_le s
  split_ifs at h with h0 hq
  · split at h
    · rename_i afterAt hlocal
      have hdom := consumeDomain_length_lt H afterAt rest h
      cases hc : consumeQuotedString (skipSpace s) with
      | none => simp [hc] at hlocal
      | some p =>
        obtain ⟨n, r⟩ := p
        have hlt := consumeQuotedString_length_lt _ _ _ hc
        simp only [hc] at hlocal
        split_ifs at hlocal
        simp only [Option.some.injEq] at hlocal
        rw [hlocal] at hlt
        simp only [List.length_cons] at hlt
        omega
    · simp at h
  · split at h
    · rename_i afterAt hlocal
      have hdom := consumeDomain_length_lt H afterAt rest h
      cases hc : consumeAtom true false (skipSpace s) with
      | none => simp [hc] at hlocal
      | some p =>
        obtain ⟨a, r⟩ := p
        have hlt := consumeAtom_length_lt _ _ _ _ _ hc
        simp only [hc, Option.map_some', Option.some.injEq] at hlocal
        rw [hlocal] at hlt
        simp only [List.length_cons] at hlt
        omega
    · simp at h

theorem consumeDisplayNameComment_length_le (H : Host) (s rest : List Char)
    (h : consumeDisplayNameComment H s = some rest) : rest.length ≤ s.length := by
  unfold consumeDisplayNameComment at h
  split at h
  · rename_i tl
    split_ifs at h
    simp only [Option.some.injEq] at h
    rw [← h]
    exact le_trans (consumeCommentLoop_length_le tl 1 []) (by simp)
  · simp at h

theorem parseAddress_ne_outOfFuel (H : Host) (g : List Char → Res (Nat × List Char))
    (handleGroup : Bool) (s : List Char) (hg : ∀ t, g t ≠ .outOfFuel) :
    parseAddress H g handleGroup s ≠ .outOfFuel := by
  unfold parseAddress
  simp only
  by_cases h0 : skipSpace s = []
  · rw [if_pos h0]
    simp
  · rw [if_neg h0]
    cases hspec : consumeAddrSpec H (skipSpace s) with
    | some rest =>
      simp only
      by_cases hp : (skipSpace rest).head? = some '('
      · rw [if_pos hp]
        cases consumeDisplayNameComment H (skipSpace rest) <;> simp
      · rw [if_neg hp]
        simp
    | none =>
      simp only
      by_cases hlt : (skipSpace s).head? ≠ some '<'
      · rw [if_pos hlt]
        cases hph : consumePhrase H (skipSpace s) with
        | outOfFuel => exact absurd hph (consumePhrase_total H _).1
        | fail => simp
        | ok afterName =>
          simp only
          by_cases hgr : handleGroup = true ∧ (skipSpace afterName).head? = some ':'
          · rw [if_pos hgr]
            exact hg _
          · rw [if_neg hgr]
            split
            · split <;> simp
            · simp
      · rw [if_neg hlt]
        simp only
        by_cases hgr : handleGroup = true ∧ (skipSpace (skipSpace s)).head? = some ':'
        · rw [if_pos hgr]
          exact hg _
        · rw [if_neg hgr]
          split
          · split <;> simp
          · simp

theorem parseAddress_noGroup_length_lt (H : Host) (g : List Char → Res (Nat × List Char))
    (s : List Char) (k : Nat) (r : List Char)
    (h : parseAddress H g false s = .ok (k, r)) : r.length < s.length := by
  unfold parseAddress at h
  simp only at h
  have hsp := skipSpace_length_le s
  have hangle : ∀ t : List Char, t.length ≤ s.length →
      (match skipSpace t with
        | '<' :: r2 =>
          match consumeAddrSpec H r2 with
          | some ('>' :: r3) => Res.ok (1, r3)
          | _ => Res.fail
        | _ => Res.fail) = Res.ok (k, r) → r.length < s.length := by
    intro t ht hm
    have ht2 := skipSpace_length_le t
    split at hm
    · rename_i r2 heq
      split at hm
      · rename_i r3 hspec
        have hlt := consumeAddrSpec_length_lt H _ _ hspec
        simp only [Res.ok.injEq, Prod.mk.injEq] at hm
        rw [← hm.2]
        rw [heq] at ht2
        simp only [List.length_cons] at ht2 hlt
        omega
      · simp at hm
    · simp at hm
  by_cases h0 : skipSpace s = []
  · rw [if_pos h0] at h
    simp at h
  · rw [if_neg h0] at h
    cases hspec : consumeAddrSpec H (skipSpace s) with
    | some rest =>
      have hlt := consumeAddrSpec_length_lt H _ _ hspec
      have hsr := skipSpace_length_le rest
      simp only [hspec] at h
      by_cases hp : (skipSpace rest).head? = some '('
      · rw [if_pos hp] at h
        cases hc : consumeDisplayNameComment H (skipSpace rest) with
        | none => simp [hc] at h
        | some r2 =>
          have hle := consumeDisplayNameComment_length_le H _ _ hc
          simp only [hc, Res.ok.injEq, Prod.mk.injEq] at h
          rw [← h.2]
          omega
      · rw [if_neg hp] at h
        simp only [Res.ok.injEq, Prod.mk.injEq] at h
        rw [← h.2]
        omega
    | none =>
      simp only [hspec] at h
      by_cases hlt : (skipSpace s).head? ≠ some '<'
      · rw [if_pos hlt] at h
        cases hph : consumePhrase H (skipSpace s) with
        | outOfFuel => simp [hph] at h
        | fail => simp [hph] at h
        | ok afterName =>
          have hle := (consumePhrase_total H _).2 afterName hph
          simp only [hph, Bool.false_eq_true, false_and, if_false] at h
          exact hangle afterName (by omega) h
      · rw [if_neg hlt] at h
        simp only [Bool.false_eq_true, false_and, if_false] at h
        exact hangle (skipSpace s) hsp h

theorem consumeGroupListLoop_total (H : Host) (fuel : Nat) :
    ∀ (s : List Char) (n : Nat), s.length < fuel →
      consumeGroupListLoop H fuel s n ≠ .outOfFuel := by
  induction fuel with
  | zero => intro s n h; omega
  | succ fuel ih =>
    intro s n hlen
    unfold consumeGroupListLoop
    have hsp := skipSpace_length_le s
    cases hpa : parseAddress H (fun _ => Res.fail) false (skipSpace s) with
    | outOfFuel =>
      exact absurd hpa (parseAddress_ne_outOfFuel H _ false _ (fun _ => by simp))
    | fail => simp
    | ok p =>
      obtain ⟨k, rest⟩ := p
      have hlt := parseAddress_noGroup_length_lt H _ _ _ _ hpa
      simp only
      cases hc : skipCFWS rest with
      | outOfFuel => exact absurd hc (skipCFWS_total rest).1
      | fail => simp
      | ok r1 =>
        have hle := (skipCFWS_total rest).2 r1 hc
        split
        · rename_i heq
          exact absurd heq (by simp)
        · rename_i heq
          exact absurd heq (by simp)
        · rename_i r2 heq
          simp only [Res.ok.injEq] at heq
          cases hc2 : skipCFWS r2 with
          | outOfFuel => exact absurd hc2 (skipCFWS_total r2).1
          | fail => simp
          | ok r3 => simp
        · rename_i r2 heq
          simp only [Res.ok.injEq] at heq
          apply ih
          rw [heq] at hle
          simp only [List.length_cons] at hle
          omega
        · simp

theorem consumeGroupList_total (H : Host) (s : List Char) :
    consumeGroupList H s ≠ .outOfFuel := by
  unfold consumeGroupList
  split
  · rename_i rest _
    cases hc : skipCFWS rest with
    | outOfFuel => exact absurd hc (skipCFWS_total rest).1
    | fail => simp
    | ok r => simp
  · exact consumeGroupListLoop_total H _ _ 0 (Nat.lt_succ_self _)

/-- The fuel given to the loops of the address parser always suffices: the verdict of
`parseSingleAddress` is `ok` or `fail`, the result of the Go function, for every host
and every text. -/
theorem parseSingleAddress_total (H : Host) (s : List Char) :
    parseSingleAddress H s ≠ .outOfFuel := by
  unfold parseSingleAddress
  cases hpa : parseAddress H (consumeGroupList H) true s with
  | outOfFuel =>
    exact absurd hpa (parseAddress_ne_outOfFuel H _ true s (consumeGroupList_total H))
  | fail => simp
  | ok p =>
    obtain ⟨n, rest⟩ := p
    simp only
    cases hc : skipCFWS rest with
    | outOfFuel => exact absurd hc (skipCFWS_total rest).1
    | fail => simp
    | ok r =>
      simp only
      split_ifs <;> simp

end mail

/-- C17: `ValidEmail()` accepts `test@abc.com` and rejects `not-valid` with reason
`not-valid is not a valid email`; `ValidUrl()` accepts `http://localhost:8080/abc/efg`
and rejects `http://192.168.0.%31/` with reason `http://192.168.0.%31/ is not a valid
url`; and for every string `s` each rule rejects `s` exactly when `mail.ParseAddress`,
respectively `url.Parse`, rejects it, with reason `s` followed by ` is not a valid email`,
respectively ` is not a valid url`. The rejection of `not-valid` is an error of the
address parser (its display name is not followed by an address in angle brackets), for
every host, and no verdict of the address parser comes from running out of fuel. -/
theorem C17_ValidEmail_ValidUrl (H : Host) :
    ValidEmail H "test@abc.com" = none
      ∧ ValidEmail H "not-valid" = some "not-valid is not a valid email"
      ∧ ValidUrl "http://localhost:8080/abc/efg" = none
      ∧ ValidUrl "http://192.168.0.%31/" = some "http://192.168.0.%31/ is not a valid url"
      ∧ mail.parseSingleAddress H "test@abc.com".data = .ok ()
      ∧ mail.parseSingleAddress H "not-valid".data = .fail
      ∧ (∀ s : String, mail.parseSingleAddress H s.data ≠ .outOfFuel)
      ∧ (∀ s : String,
          (ValidEmail H s ≠ none ↔ mail.ParseAddressOk H s = false)
            ∧ ValidEmail H s
                = (if mail.ParseAddressOk H s = false then some (s ++ " is not a valid email")
                  else none))
      ∧ (∀ s : String,
          (ValidUrl s ≠ none ↔ url.ParseOk s = false)
            ∧ ValidUrl s
                = (if url.ParseOk s = false then some (s ++ " is not a valid url")
                  else none)) := by
  have hm1 : mail.ParseAddressOk H "test@abc.com" = true := rfl
  have hm2 : mail.ParseAddressOk H "not-valid" = false := rfl
  have hu1 : url.ParseOk "http://localhost:8080/abc/efg" = true := by decide
  have hu2 : url.ParseOk "http://192.168.0.%31/" = false := by decide
  refine ⟨?_, ?_, ?_, ?_, rfl, rfl, fun s => mail.parseSingleAddress_total H s.data, ?_, ?_⟩
  · simp [ValidEmail, hm1]
  · simp only [ValidEmail, hm2]
    decide
  · simp [ValidUrl, hu1]
  · simp only [ValidUrl, hu2]
    decide
  · intro s
    cases h : mail.ParseAddressOk H s <;> simp [ValidEmail, h]
  · intro s
    cases h : url.ParseOk s <;> simp [ValidUrl, h]

/-- C18 (the code departs from it): `GreaterThan(b)` tests `t <= value`, which is
false when `t` is NaN, so for every bound `b` the rule returns no error on NaN although
`NaN > b` does not hold; on a host whose float parser reads the text `NaN` as NaN,
`GetAndValidate` then returns `(NaN, nil)`. When neither the value nor the bound is NaN
the rule does accept exactly when `v > b`. -/
theorem C18_GreaterThan_accepts_NaN (H : Host) (b : Float64) :
    float64NaN.isNaN = true
      ∧ GreaterThan H .float64 b float64NaN = none
      ∧ Float64.lt b float64NaN = false
      ∧ (∀ (env : Env) (name : String), H.ParseFloat "NaN" = (float64NaN, none) →
          env name = some "NaN" →
          GetAndValidate H env .float64 name (GreaterThan H .float64 b) = (float64NaN, none))
      ∧ (∀ v : Float64, v.isNaN = false → b.isNaN = false →
          (GreaterThan H .float64 b v = none ↔ Float64.lt b v = true)) := by
  have hn : float64NaN.isNaN = true := by decide
  have hacc : GreaterThan H .float64 b float64NaN = none := by
    simp [GreaterThan, goLe, Float64.le, hn]
  refine ⟨hn, hacc, ?_, ?_, ?_⟩
  · simp [Float64.lt, hn]
  · intro env name hparse hset
    have hg : getEnvVar H env .float64 name = (float64NaN, none) := by
      rw [getEnvVar_set H env .float64 name _ hset]
      simp [convert, hparse]
    unfold GetAndValidate
    rw [hg]
    simp [hacc]
  · intro v hv hb
    by_cases hk : v.key ≤ b.key
    · have hk2 : ¬ b.key < v.key := not_lt.mpr hk
      simp [GreaterThan, goLe, Float64.le, Float64.lt, hv, hb, hk, hk2]
    · have hk2 : b.key < v.key := not_le.mp hk
      simp [GreaterThan, goLe, Float64.le, Float64.lt, hv, hb, hk, hk2]

/-! ## Empty intervals -/

theorem GetAndValidate_error_of_rejecting (H : Host) (env : Env) (T : Ty) (name : String)
    (validate : ValidationFunc T) (hrej : ∀ v, validate v ≠ none) :
    (GetAndValidate H env T name validate).2 ≠ none := by
  unfold GetAndValidate
  rcases hg : getEnvVar H env T name with ⟨v, _ | e⟩
  · cases hv : validate v with
    | none => exact absurd hv (hrej v)
    | some r => simp [hv]
  · simp

/-- C19: for `int` and for `uint`, when `min > max` the rule `Between(min, max)` rejects
every value with reason `must be between <min> and <max>`, and `GetAndValidate` with
such a rule returns an error in every environment. -/
theorem C19_Between_empty_interval (H : Host) (env : Env) (name : String)
    (loI hiI : Int) (loU hiU : Nat) (hI : loI > hiI) (hU : loU > hiU) :
    (∀ v : Int, Between H .int loI hiI v
        = some ("must be between " ++ formatInt loI ++ " and " ++ formatInt hiI))
      ∧ (∀ v : Nat, Between H .uint loU hiU v
        = some ("must be between " ++ decimal loU ++ " and " ++ decimal hiU))
      ∧ (GetAndValidate H env .int name (Between H .int loI hiI)).2 ≠ none
      ∧ (GetAndValidate H env .uint name (Between H .uint loU hiU)).2 ≠ none := by
  have h1 : ∀ v : Int, Between H .int loI hiI v
      = some ("must be between " ++ formatInt loI ++ " and " ++ formatInt hiI) := by
    intro v
    have h3 : v < loI ∨ hiI < v := by omega
    simp [Between, goLt, formatV, h3]
  have h2 : ∀ v : Nat, Between H .uint loU hiU v
      = some ("must be between " ++ decimal loU ++ " and " ++ decimal hiU) := by
    intro v
    have h3 : v < loU ∨ hiU < v := by omega
    simp [Between, goLt, formatV, h3]
  refine ⟨h1, h2, ?_, ?_⟩
  · apply GetAndValidate_error_of_rejecting
    intro v
    rw [h1 v]
    simp
  · apply GetAndValidate_error_of_rejecting
    intro v
    rw [h2 v]
    simp

/-- C19, an instance: `Between(10, 0)` rejects 3, a value between the bounds in the
other order, with `must be between 10 and 0`, and `INT_VAR=3` does not validate. -/
theorem C19_Between_empty_interval_witness :
    (10 : Int) > 0 ∧ (10 : Nat) > 0
      ∧ Between host64 .int 10 0 3 = some "must be between 10 and 0"
      ∧ (GetAndValidate host64 (envOf [("INT_VAR", "3")]) .int "INT_VAR"
          (Between host64 .int 10 0)).2 ≠ none :=
  ⟨by decide, by decide,
    ((C19_Between_empty_interval host64 (envOf [("INT_VAR", "3")]) "INT_VAR" 10 0 10 0
      (by decide) (by decide)).1 3).trans (by decide),
    (C19_Between_empty_interval host64 (envOf [("INT_VAR", "3")]) "INT_VAR" 10 0 10 0
      (by decide) (by decide)).2.2.1⟩

/-! ## Round trip of the decimal rendering -/

theorem digitChar_toNat (d : Nat) (h : d < 10) : (Nat.digitChar d).toNat = 0x30 + d := by
  interval_cases d <;> rfl

theorem valueOfDigits_append (acc : Nat) (pre : List Char) (c : Char) :
    valueOfDigits acc (pre ++ [c]) = valueOfDigits acc pre * 10 + (c.toNat - 0x30) := by
  simp [valueOfDigits, List.foldl_append]

theorem le_valueOfDigits (cs : List Char) (acc : Nat) : acc ≤ valueOfDigits acc cs := by
  induction cs generalizing acc with
  | nil => simp [valueOfDigits]
  | cons c cs ih =>
    have h := ih (acc * 10 + (c.toNat - 0x30))
    have h2 : valueOfDigits acc (c :: cs) = valueOfDigits (acc * 10 + (c.toNat - 0x30)) cs := rfl
    rw [h2]
    omega

theorem toDigitsCore_spec (fuel : Nat) : ∀ (n : Nat) (ds : List Char), n < fuel →
    ∃ pre, Nat.toDigitsCore 10 fuel n ds = pre ++ ds ∧ pre ≠ []
      ∧ (∀ c ∈ pre, 0x30 ≤ c.toNat ∧ c.toNat ≤ 0x39) ∧ valueOfDigits 0 pre = n := by
  induction fuel with
  | zero => intro n ds h; omega
  | succ fuel ih =>
    intro n ds hn
    have hd : (Nat.digitChar (n % 10)).toNat = 0x30 + n % 10 :=
      digitChar_toNat (n % 10) (Nat.mod_lt n (by decide))
    by_cases h0 : n / 10 = 0
    · refine ⟨[Nat.digitChar (n % 10)], ?_, by simp, ?_, ?_⟩
      · simp [Nat.toDigitsCore, h0]
      · intro c hc
        simp only [List.mem_singleton] at hc
        subst hc
        omega
      · simp only [valueOfDigits, List.foldl_cons, List.foldl_nil, hd]
        omega
    · have hlt : n / 10 < fuel := by omega
      obtain ⟨pre, hpre, _, hdig, hval⟩ := ih (n / 10) (Nat.digitChar (n % 10) :: ds) hlt
      refine ⟨pre ++ [Nat.digitChar (n % 10)], ?_, by simp, ?_, ?_⟩
      · simp [Nat.toDigitsCore, h0, hpre]
      · intro c hc
        rcases List.mem_append.mp hc with hc | hc
        · exact hdig c hc
        · simp only [List.mem_singleton] at hc
          subst hc
          omega
      · rw [valueOfDigits_append, hval, hd]
        omega

theorem decimal_spec (n : Nat) :
    ∃ cs, decimal n = String.mk cs ∧ cs ≠ []
      ∧ (∀ c ∈ cs, 0x30 ≤ c.toNat ∧ c.toNat ≤ 0x39) ∧ valueOfDigits 0 cs = n := by
  obtain ⟨pre, hpre, hne, hdig, hval⟩ := toDigitsCore_spec (n + 1) n [] (Nat.lt_succ_self n)
  refine ⟨pre, ?_, hne, hdig, hval⟩
  simp [decimal, Nat.toDigits, hpre]

theorem bytes_of_digits (cs : List Char) (h : ∀ c ∈ cs, 0x30 ≤ c.toNat ∧ c.toNat ≤ 0x39) :
    bytes (String.mk cs) = cs.map Char.toNat := by
  unfold bytes
  induction cs with
  | nil => rfl
  | cons c cs ih =>
    have hc := h c (List.mem_cons_self c cs)
    have hu : utf8 c = [c.toNat] := by
      have : c.toNat < 0x80 := by omega
      simp [utf8, this]
    simp only [List.flatMap_cons, List.map_cons, hu] at ih ⊢
    rw [ih (fun d hd => h d (List.mem_cons_of_mem c hd))]
    rfl

theorem parseUintLoop_digits (s0 : String) (maxVal : Nat) (hmax : maxVal < 2 ^ 64)
    (cs : List Char) : ∀ acc : Nat, (∀ c ∈ cs, 0x30 ≤ c.toNat ∧ c.toNat ≤ 0x39) →
      valueOfDigits acc cs ≤ maxVal →
      strconv.parseUintLoop s0 maxVal (cs.map Char.toNat) acc = (valueOfDigits acc cs, none) := by
  induction cs with
  | nil => intro acc _ _; rfl
  | cons c cs ih =>
    intro acc hdig hle
    have hc := hdig c (List.mem_cons_self c cs)
    have hstep : valueOfDigits acc (c :: cs)
        = valueOfDigits (acc * 10 + (c.toNat - 0x30)) cs := rfl
    have hmono := le_valueOfDigits cs (acc * 10 + (c.toNat - 0x30))
    rw [hstep] at hle
    have hd : strconv.digitOf c.toNat = some (c.toNat - 0x30) := by
      simp [strconv.digitOf, hc.1, hc.2]
    have hd10 : ¬ c.toNat - 0x30 ≥ 10 := by omega
    have hcut : ¬ acc ≥ strconv.maxUint64 / 10 + 1 := by
      simp only [strconv.maxUint64]
      norm_num at hmax ⊢
      omega
    have hn10 : acc * 10 % 2 ^ 64 = acc * 10 := by
      apply Nat.mod_eq_of_lt
      omega
    have hn1 : (acc * 10 + (c.toNat - 0x30)) % 2 ^ 64 = acc * 10 + (c.toNat - 0x30) := by
      apply Nat.mod_eq_of_lt
      omega
    have hok : ¬ (acc * 10 + (c.toNat - 0x30) < acc * 10
        ∨ acc * 10 + (c.toNat - 0x30) > maxVal) := by omega
    rw [hstep]
    simp only [List.map_cons, strconv.parseUintLoop, hd, hd10, hcut, hn10, hn1, hok,
      if_false]
    exact ih _ (fun d hdm => hdig d (List.mem_cons_of_mem c hdm)) hle

theorem atoiLoop_digits (cs : List Char) : ∀ acc : Nat,
    (∀ c ∈ cs, 0x30 ≤ c.toNat ∧ c.toNat ≤ 0x39) →
      strconv.atoiLoop (cs.map Char.toNat) (acc : Int)
        = some ((valueOfDigits acc cs : Nat) : Int) := by
  induction cs with
  | nil => intro acc _; rfl
  | cons c cs ih =>
    intro acc hdig
    have hc := hdig c (List.mem_cons_self c cs)
    have hb : (c.toNat + 256 - 0x30) % 256 = c.toNat - 0x30 := by omega
    have h9 : ¬ c.toNat - 0x30 > 9 := by omega
    have hstep : valueOfDigits acc (c :: cs)
        = valueOfDigits (acc * 10 + (c.toNat - 0x30)) cs := rfl
    rw [hstep, ← ih _ (fun d hdm => hdig d (List.mem_cons_of_mem c hdm))]
    simp only [List.map_cons, strconv.atoiLoop, hb, h9, if_false]
    push_cast
    rfl

theorem mk_ne_empty (cs : List Char) (hne : cs ≠ []) : String.mk cs ≠ "" := by
  intro h
  apply hne
  have := congrArg String.data h
  simpa using this

theorem ParseUint_digits (H : Host) (cs : List Char) (bitSize w : Nat)
    (hw : (if bitSize = 0 then H.arch.intSize else bitSize) = w) (hw2 : w = 32 ∨ w = 64)
    (hne : cs ≠ []) (hdig : ∀ c ∈ cs, 0x30 ≤ c.toNat ∧ c.toNat ≤ 0x39)
    (hle : valueOfDigits 0 cs < 2 ^ w) :
    strconv.ParseUint H (String.mk cs) bitSize = (valueOfDigits 0 cs, none) := by
  unfold strconv.ParseUint
  rw [if_neg (mk_ne_empty cs hne)]
  simp only [hw]
  rcases hw2 with h | h
  · subst h
    norm_num at hle ⊢
    rw [bytes_of_digits cs hdig]
    exact parseUintLoop_digits _ _ (by norm_num) cs 0 hdig (by omega)
  · subst h
    norm_num at hle ⊢
    rw [bytes_of_digits cs hdig]
    exact parseUintLoop_digits _ _ (by norm_num) cs 0 hdig (by omega)

theorem head_of_digits (cs : List Char) (hdig : ∀ c ∈ cs, 0x30 ≤ c.toNat ∧ c.toNat ≤ 0x39) :
    (cs.map Char.toNat).head? ≠ some 0x2D ∧ (cs.map Char.toNat).head? ≠ some 0x2B := by
  cases cs with
  | nil => simp
  | cons c cs =>
    have hc := hdig c (List.mem_cons_self c cs)
    simp only [List.map_cons, List.head?_cons, ne_eq, Option.some.injEq]
    omega

theorem intSize_cases (H : Host) : H.arch.intSize = 32 ∨ H.arch.intSize = 64 := by
  cases H.arch <;> simp [Arch.intSize]

theorem ParseInt_digits_nonneg (H : Host) (cs : List Char) (hne : cs ≠ [])
    (hdig : ∀ c ∈ cs, 0x30 ≤ c.toNat ∧ c.toNat ≤ 0x39)
    (hle : valueOfDigits 0 cs < 2 ^ (H.arch.intSize - 1)) :
    strconv.ParseInt H (String.mk cs) 0 = (((valueOfDigits 0 cs : Nat) : Int), none) := by
  have hhead := head_of_digits cs hdig
  have hb := bytes_of_digits cs hdig
  have hpu : strconv.ParseUint H (String.mk cs) 0 = (valueOfDigits 0 cs, none) := by
    apply ParseUint_digits H cs 0 H.arch.intSize (by simp) (intSize_cases H) hne hdig
    rcases intSize_cases H with h | h <;> rw [h] at hle ⊢ <;> norm_num at hle ⊢ <;> omega
  unfold strconv.ParseInt
  rw [if_neg (mk_ne_empty cs hne)]
  simp only [hb, hhead.1, hhead.2, or_self, if_false, hpu]
  rcases intSize_cases H with h | h
  · rw [h] at hle
    simp only [h, strconv.wrapInt]
    norm_num at hle ⊢
    rw [if_neg (by omega)]
    refine Prod.ext ?_ rfl
    simp only
    omega
  · rw [h] at hle
    simp only [h, strconv.wrapInt]
    norm_num at hle ⊢
    rw [if_neg (by omega)]
    refine Prod.ext ?_ rfl
    simp only
    omega

theorem bytes_of_minus_digits (cs : List Char)
    (hdig : ∀ c ∈ cs, 0x30 ≤ c.toNat ∧ c.toNat ≤ 0x39) :
    bytes (String.mk ('-' :: cs)) = 0x2D :: cs.map Char.toNat := by
  have h := bytes_of_digits cs hdig
  unfold bytes at h ⊢
  have hm : utf8 '-' = [0x2D] := by decide
  simp only [List.flatMap_cons, hm] at h ⊢
  rw [h]
  rfl

theorem pow_facts :
    (2 : Nat) ^ (32 - 1) % 2 ^ 64 = 2147483648 ∧ (2 : Nat) ^ (64 - 1) % 2 ^ 64 = 9223372036854775808
      ∧ (2 : Int) ^ (64 - 1) = 9223372036854775808 ∧ (2 : Int) ^ 64 = 18446744073709551616
      ∧ (2 : Int) ^ (32 - 1) = 2147483648 ∧ (2 : Int) ^ 32 = 4294967296
      ∧ (2 : Nat) ^ (32 - 1) = 2147483648 ∧ (2 : Nat) ^ (64 - 1) = 9223372036854775808 := by
  norm_num

theorem ParseInt_digits_neg (H : Host) (cs : List Char) (hne : cs ≠ [])
    (hdig : ∀ c ∈ cs, 0x30 ≤ c.toNat ∧ c.toNat ≤ 0x39)
    (hle : valueOfDigits 0 cs ≤ 2 ^ (H.arch.intSize - 1)) :
    strconv.ParseInt H (String.mk ('-' :: cs)) 0
      = (- ((valueOfDigits 0 cs : Nat) : Int), none) := by
  have hb := bytes_of_minus_digits cs hdig
  have ht : tail1 (String.mk ('-' :: cs)) = String.mk cs := rfl
  have hpu : strconv.ParseUint H (String.mk cs) 0 = (valueOfDigits 0 cs, none) := by
    apply ParseUint_digits H cs 0 H.arch.intSize (by simp) (intSize_cases H) hne hdig
    rcases intSize_cases H with h | h
    · rw [h] at hle ⊢
      rw [pow_facts.2.2.2.2.2.2.1] at hle
      have : (2 : Nat) ^ 32 = 4294967296 := by norm_num
      omega
    · rw [h] at hle ⊢
      rw [pow_facts.2.2.2.2.2.2.2] at hle
      have : (2 : Nat) ^ 64 = 18446744073709551616 := by norm_num
      omega
  unfold strconv.ParseInt
  rw [if_neg (mk_ne_empty _ (List.cons_ne_nil _ _))]
  simp only [hb, List.head?_cons, or_true, if_true, ht, hpu]
  rcases intSize_cases H with h | h
  · rw [h] at hle
    rw [pow_facts.2.2.2.2.2.2.1] at hle
    simp only [h, strconv.wrapInt, pow_facts.1, pow_facts.2.2.1, pow_facts.2.2.2.1]
    rw [if_neg (by simp), if_neg (by simp; omega)]
    refine Prod.ext ?_ rfl
    simp only
    omega
  · rw [h] at hle
    rw [pow_facts.2.2.2.2.2.2.2] at hle
    simp only [h, strconv.wrapInt, pow_facts.2.1, pow_facts.2.2.1, pow_facts.2.2.2.1]
    rw [if_neg (by simp), if_neg (by simp; omega)]
    refine Prod.ext ?_ rfl
    simp only
    omega

theorem Atoi_digits_nonneg (H : Host) (cs : List Char) (hne : cs ≠ [])
    (hdig : ∀ c ∈ cs, 0x30 ≤ c.toNat ∧ c.toNat ≤ 0x39)
    (hle : valueOfDigits 0 cs < 2 ^ (H.arch.intSize - 1)) :
    strconv.Atoi H (String.mk cs) = (((valueOfDigits 0 cs : Nat) : Int), none) := by
  have hhead := head_of_digits cs hdig
  have hb := bytes_of_digits cs hdig
  have hloop := atoiLoop_digits cs 0 hdig
  have hpi := ParseInt_digits_nonneg H cs hne hdig hle
  unfold strconv.Atoi
  simp only [hb]
  split
  · simp only [hhead.1, hhead.2, or_self, if_false, false_and]
    rw [show (0 : Int) = ((0 : Nat) : Int) from rfl, hloop]
  · rw [hpi]
    simp only
    refine Prod.ext ?_ rfl
    simp only [strconv.wrapInt]
    rcases intSize_cases H with h | h
    · rw [h] at hle ⊢
      norm_num at hle ⊢
      omega
    · rw [h] at hle ⊢
      norm_num at hle ⊢
      omega

theorem Atoi_digits_neg (H : Host) (cs : List Char) (hne : cs ≠ [])
    (hdig : ∀ c ∈ cs, 0x30 ≤ c.toNat ∧ c.toNat ≤ 0x39)
    (hle : valueOfDigits 0 cs ≤ 2 ^ (H.arch.intSize - 1)) :
    strconv.Atoi H (String.mk ('-' :: cs)) = (- ((valueOfDigits 0 cs : Nat) : Int), none) := by
  have hb := bytes_of_minus_digits cs hdig
  have hloop := atoiLoop_digits cs 0 hdig
  have hpi := ParseInt_digits_neg H cs hne hdig hle
  have hlen : ¬ (cs.map Char.toNat).length < 1 := by
    cases cs with
    | nil => exact absurd rfl hne
    | cons c cs => simp
  unfold strconv.Atoi
  simp only [hb]
  split
  · simp only [List.head?_cons, true_or, if_true, List.tail_cons, hlen, and_false, if_false]
    rw [show (0 : Int) = ((0 : Nat) : Int) from rfl, hloop]
  · rw [hpi]
    simp only
    refine Prod.ext ?_ rfl
    simp only [strconv.wrapInt]
    rcases intSize_cases H with h | h
    · rw [h] at hle ⊢
      norm_num at hle ⊢
      omega
    · rw [h] at hle ⊢
      norm_num at hle ⊢
      omega

theorem Atoi_formatInt (H : Host) (n : Int)
    (hlo : - (2 : Int) ^ (H.arch.intSize - 1) ≤ n) (hhi : n < (2 : Int) ^ (H.arch.intSize - 1)) :
    strconv.Atoi H (formatInt n) = (n, none) := by
  obtain ⟨cs, hcs, hne, hdig, hval⟩ := decimal_spec n.natAbs
  have hpow : ((2 ^ (H.arch.intSize - 1) : Nat) : Int) = (2 : Int) ^ (H.arch.intSize - 1) := by
    push_cast
    rfl
  by_cases hneg : n < 0
  · have hf : formatInt n = String.mk ('-' :: cs) := by
      simp only [formatInt, hneg, if_true, hcs]
      rfl
    have hle : valueOfDigits 0 cs ≤ 2 ^ (H.arch.intSize - 1) := by
      rw [hval]
      have : ((n.natAbs : Nat) : Int) ≤ ((2 ^ (H.arch.intSize - 1) : Nat) : Int) := by
        rw [hpow]
        omega
      exact_mod_cast this
    rw [hf, Atoi_digits_neg H cs hne hdig hle, hval]
    refine Prod.ext ?_ rfl
    simp only
    omega
  · have hf : formatInt n = String.mk cs := by
      simp only [formatInt, hneg, if_false, hcs]
    have hle : valueOfDigits 0 cs < 2 ^ (H.arch.intSize - 1) := by
      rw [hval]
      have : ((n.natAbs : Nat) : Int) < ((2 ^ (H.arch.intSize - 1) : Nat) : Int) := by
        rw [hpow]
        omega
      exact_mod_cast this
    rw [hf, Atoi_digits_nonneg H cs hne hdig hle, hval]
    refine Prod.ext ?_ rfl
    simp only
    omega

theorem ParseUint_decimal (H : Host) (m : Nat) (hm : m < 2 ^ 64) :
    strconv.ParseUint H (decimal m) 64 = (m, none) := by
  obtain ⟨cs, hcs, hne, hdig, hval⟩ := decimal_spec m
  rw [hcs]
  have h := ParseUint_digits H cs 64 64 (by simp) (Or.inr rfl) hne hdig (by rw [hval]; exact hm)
  rw [h, hval]

/-- C12: for every signed integer `n` in the platform `int` range, when the variable is
set to the decimal rendering of `n` the lookup gives `n` with no error, `Get[int]`
returns `n`, and `GetAndValidate` returns `(n, nil)` or a validation error, never a
retrieval error; and, independently, for every unsigned integer `m` in the platform
`uint` range, when the variable is set to the decimal rendering of `m` the lookup gives
`m` with no error, `Get[uint]` returns `m`, and `GetAndValidate` returns `(m, nil)` or a
validation error. -/
theorem C12_integer_round_trip (H : Host) :
    (∀ (env : Env) (name : String) (n : Int) (validate : ValidationFunc .int),
        - (2 : Int) ^ (H.arch.intSize - 1) ≤ n → n < (2 : Int) ^ (H.arch.intSize - 1) →
        env name = some (formatInt n) →
        getEnvVar H env .int name = (n, none)
          ∧ Get H env .int name = n
          ∧ GetAndValidate H env .int name validate
              = (match validate n with
                | none => (n, none)
                | some r => (0, some (strconv.Quote H name ++ " failed validation: " ++ r))))
      ∧ (∀ (env : Env) (name : String) (m : Nat) (validate : ValidationFunc .uint),
        m < 2 ^ H.arch.intSize →
        env name = some (decimal m) →
        getEnvVar H env .uint name = (m, none)
          ∧ Get H env .uint name = m
          ∧ GetAndValidate H env .uint name validate
              = (match validate m with
                | none => (m, none)
                | some r => (0, some (strconv.Quote H name ++ " failed validation: " ++ r)))) := by
  constructor
  · intro env name n validate hlo hhi hset
    have hg : getEnvVar H env .int name = (n, none) := by
      rw [getEnvVar_set H env .int name _ hset]
      simp only [convert, Atoi_formatInt H n hlo hhi]
      rfl
    refine ⟨hg, by simp [Get, hg], ?_⟩
    unfold GetAndValidate
    rw [hg]
    cases hv : validate n <;> simp [hv, zero]
  · intro env name m validate hm hset
    have hm64 : m < 2 ^ 64 := by
      have h32 : (2 : Nat) ^ 32 = 4294967296 := by norm_num
      have h64 : (2 : Nat) ^ 64 = 18446744073709551616 := by norm_num
      rcases intSize_cases H with h | h <;> rw [h] at hm <;> omega
    have hg : getEnvVar H env .uint name = (m, none) := by
      rw [getEnvVar_set H env .uint name _ hset]
      simp only [convert, ParseUint_decimal H m hm64]
      refine Prod.ext ?_ rfl
      exact Nat.mod_eq_of_lt hm
    refine ⟨hg, by simp [Get, hg], ?_⟩
    unfold GetAndValidate
    rw [hg]
    cases hv : validate m <;> simp [hv, zero]

/-- C12, instances obtained from the theorem: with only `INT_VAR=-5` in the environment
`Get[int]` returns -5; the rendering of the least 64-bit `int` is read back as that
number; `INT_VAR=42` and `UINT_VAR=1` are read as in the test suite; and the rendering
of the greatest 64-bit `uint` is read back as that number. -/
theorem C12_integer_round_trip_witness :
    formatInt (-5) = "-5"
      ∧ Get host64 (envOf [("INT_VAR", "-5")]) .int "INT_VAR" = -5
      ∧ formatInt (-9223372036854775808) = "-9223372036854775808"
      ∧ Get host64 (envOf [("INT_VAR", "-9223372036854775808")]) .int "INT_VAR"
          = -9223372036854775808
      ∧ Get host64 (envOf [("INT_VAR", "42")]) .int "INT_VAR" = 42
      ∧ Get host32 (envOf [("INT_VAR", "2147483647")]) .int "INT_VAR" = 2147483647
      ∧ decimal 1 = "1"
      ∧ Get host64 (envOf [("UINT_VAR", "1")]) .uint "UINT_VAR" = 1
      ∧ decimal 18446744073709551615 = "18446744073709551615"
      ∧ Get host64 (envOf [("UINT_VAR", "18446744073709551615")]) .uint "UINT_VAR"
          = 18446744073709551615 :=
  ⟨by decide,
    ((C12_integer_round_trip host64).1 (envOf [("INT_VAR", "-5")]) "INT_VAR" (-5)
      (fun _ => none) (by decide) (by decide) (by decide)).2.1,
    by decide,
    ((C12_integer_round_trip host64).1 (envOf [("INT_VAR", "-9223372036854775808")])
      "INT_VAR" (-9223372036854775808) (fun _ => none)
      (by decide) (by decide) (by decide)).2.1,
    ((C12_integer_round_trip host64).1 (envOf [("INT_VAR", "42")]) "INT_VAR" 42
      (fun _ => none) (by decide) (by decide) (by decide)).2.1,
    ((C12_integer_round_trip host32).1 (envOf [("INT_VAR", "2147483647")]) "INT_VAR"
      2147483647 (fun _ => none) (by decide) (by decide) (by decide)).2.1,
    by decide,
    ((C12_integer_round_trip host64).2 (envOf [("UINT_VAR", "1")]) "UINT_VAR" 1
      (fun _ => none) (by decide) (by decide)).2.1,
    by decide,
    ((C12_integer_round_trip host64).2 (envOf [("UINT_VAR", "18446744073709551615")])
      "UINT_VAR" 18446744073709551615 (fun _ => none) (by decide) (by decide)).2.1⟩

end envvar
